import Mathlib

/-!
# Verification of the directory reconciliation engine

A shallow embedding of the user synchronization subsystem:

* `reconcile` embeds `userSyncer` (src/server/commands/userSyncer.ts),
  modelling the sequelize store as a pure `DB` record of lists.  Per-user
  transactions are modelled by their net effect: the only operation that can
  fail is `UserAuthentication.create`, whose unique key on
  (authenticationProviderId, providerId) is part of the store schema (not in
  the sources here) and is modelled from the spec; a failing create rolls the
  transaction back and appends an error, exactly as the catch blocks do.
* `buildUserName` / `normalizeKeycloakUsers` embed the snapshot normalizer of
  `SyncOIDCUsersTask` (src/plugins/oidc/server/tasks/SyncOIDCUsersTask.ts).
* `getAllUsersGo` embeds the pagination loop of `KeycloakAdminClient.getAllUsers`
  (src/plugins/oidc/server/keycloakAdmin.ts).

JavaScript string truthiness is modelled explicitly: an optional string is
truthy iff it is present and non-empty; a plain string is truthy iff non-empty.
-/

/-- `s.toLowerCase()` as used for case-insensitive email comparison
(character-wise lowering, written over the character list so that it
evaluates in the kernel). -/
def lower (s : String) : String := ⟨s.data.map Char.toLower⟩

/-- JS `String.prototype.trim`: strip leading and trailing whitespace. -/
def trimStr (s : String) : String :=
  ⟨((s.data.dropWhile Char.isWhitespace).reverse.dropWhile Char.isWhitespace).reverse⟩

/-- JS truthiness of an optional string (`undefined`/`null`/`""` are falsy). -/
def optTruthy : Option String → Bool
  | some s => s ≠ ""
  | none => false

/-- `x || null` on an optional string value. -/
def truthyOrNull (o : Option String) : Option String :=
  match o with
  | some s => if s = "" then none else some s
  | none => none

/-- `hasSub pat hay` decides whether `pat` occurs contiguously in `hay`,
modelling JS `String.prototype.includes`. -/
def hasSub (pat : List Char) : List Char → Bool
  | [] => pat.isEmpty
  | c :: t => pat.isPrefixOf (c :: t) || hasSub pat t

/-- `user.avatarUrl.includes("keycloak")` guarded by truthiness:
`!user.avatarUrl || user.avatarUrl.includes("keycloak")`. -/
def avatarOverwritable (o : Option String) : Bool :=
  if optTruthy o then hasSub "keycloak".toList (o.getD "").toList else true

/-- `SyncUser`: one snapshot entry from the identity provider. -/
structure SyncUser where
  providerId : String
  email : String
  name : String
  avatarUrl : Option String
deriving Repr, DecidableEq

/-- A local `User` row. -/
structure UserRec where
  id : Nat
  teamId : Nat
  email : String
  name : String
  avatarUrl : Option String
  role : String
  suspendedAt : Option Nat
  suspendedById : Option Nat
  lastActiveAt : Option Nat
deriving Repr, DecidableEq

/-- A `UserAuthentication` row. -/
structure AuthRec where
  providerId : String
  authenticationProviderId : Nat
  userId : Nat
  scopes : List String
deriving Repr, DecidableEq

/-- A `Team` row. -/
structure TeamRec where
  id : Nat
  defaultUserRole : Option String
deriving Repr, DecidableEq

/-- An `AuthenticationProvider` row.  `syncDefaultGroupId` models the optional
settings column; the scheduled task never reads it. -/
structure APRec where
  id : Nat
  teamId : Nat
  name : String
  enabled : Bool
  syncDefaultGroupId : Option Nat
deriving Repr, DecidableEq

/-- A `Group` row. -/
structure GroupRec where
  id : Nat
  teamId : Nat
  name : String
deriving Repr, DecidableEq

/-- A `GroupUser` membership row. -/
structure GroupUserRec where
  userId : Nat
  groupId : Nat
  permission : String
deriving Repr, DecidableEq

/-- The directory store.  `nextUserId` models the generator of fresh
primary keys for created users. -/
structure DB where
  teams : List TeamRec
  authProviders : List APRec
  groups : List GroupRec
  users : List UserRec
  auths : List AuthRec
  groupUsers : List GroupUserRec
  nextUserId : Nat
deriving Repr, DecidableEq

/-- `UserSyncerResult`. -/
structure SyncReport where
  created : Nat
  updated : Nat
  suspended : Nat
  unchanged : Nat
  reactivated : Nat
  addedToGroup : Nat
  errors : List String
deriving Repr, DecidableEq

/-- The all-zero report `userSyncer` starts from. -/
def SyncReport.empty : SyncReport :=
  ⟨0, 0, 0, 0, 0, 0, []⟩

/-- The attribute diff computed by `updateUserIfNeeded`; a `some` field is a
pending write. -/
structure Patch where
  name : Option String
  email : Option String
  avatarUrl : Option String
deriving Repr, DecidableEq

/-- The diff logic of `updateUserIfNeeded` (userSyncer.ts lines 425-447). -/
def computeUpdates (u : UserRec) (p : SyncUser) : Patch where
  name := if p.name ≠ "" ∧ u.name ≠ p.name then some p.name else none
  email :=
    if p.email ≠ "" ∧ lower u.email ≠ lower p.email then some p.email else none
  avatarUrl :=
    match p.avatarUrl with
    | some a =>
        if a ≠ "" ∧ u.avatarUrl ≠ some a ∧ avatarOverwritable u.avatarUrl then
          some a
        else none
    | none => none

/-- `Object.keys(updates).length > 0`. -/
def hasUpdates (p : Patch) : Bool :=
  p.name.isSome || p.email.isSome || p.avatarUrl.isSome

/-- `user.update(updates)` applied to one row. -/
def applyPatch (u : UserRec) (p : Patch) : UserRec :=
  { u with
    name := p.name.getD u.name
    email := p.email.getD u.email
    avatarUrl := match p.avatarUrl with | some a => some a | none => u.avatarUrl }

/-- `User.findByPk`-style lookup by primary key. -/
def getUser (db : DB) (uid : Nat) : Option UserRec :=
  db.users.find? (fun w => decide (w.id = uid))

/-- The join of a `UserAuthentication` with its `User` constrained to a team
(`include` with `required: true` and `where: { teamId }`). -/
def getUserInTeam (db : DB) (tid uid : Nat) : Option UserRec :=
  db.users.find? (fun w => decide (w.id = uid ∧ w.teamId = tid))

/-- Apply `f` to the user row with id `uid`. -/
def writeUser (db : DB) (uid : Nat) (f : UserRec → UserRec) : DB :=
  { db with users := db.users.map (fun w => if w.id = uid then f w else w) }

/-- `user.update({ suspendedAt: null, suspendedById: null })`. -/
def clearSusp (db : DB) (uid : Nat) : DB :=
  writeUser db uid (fun w => { w with suspendedAt := none, suspendedById := none })

/-- `user.update({ suspendedAt: new Date() })` (suspendedById is not written). -/
def setSusp (db : DB) (uid : Nat) (now : Nat) : DB :=
  writeUser db uid (fun w => { w with suspendedAt := some now })

/-- `providerUsersMap.get`: a JS `Map` built by iterating the snapshot keeps
the last entry for each key. -/
def lookupLast (S : List SyncUser) (pid : String) : Option SyncUser :=
  S.reverse.find? (fun s => decide (s.providerId = pid))

/-- Whether a `UserAuthentication` with this (provider binding, subject id)
already exists.  Modelled from the spec: the store's unique key on
(authenticationProviderId, providerId) — declared outside these sources —
makes `UserAuthentication.create` fail exactly when this holds. -/
def authExists (db : DB) (apId : Nat) (pid : String) : Bool :=
  db.auths.any (fun a =>
    decide (a.authenticationProviderId = apId ∧ a.providerId = pid))

/-- `User.findOne({ where: { teamId, email: { [Op.iLike]: email } } })`:
case-insensitive email lookup within the team. -/
def findUserByEmailCI (db : DB) (tid : Nat) (email : String) : Option UserRec :=
  db.users.find? (fun w => decide (w.teamId = tid ∧ lower w.email = lower email))

/-- `UserAuthentication.findAll` for the provider with the joined team user:
the (auth, user) pairs Phase 1 iterates, each user a copy loaded up front. -/
def joinedPairs (db : DB) (tid apId : Nat) : List (AuthRec × UserRec) :=
  db.auths.filterMap (fun a =>
    if a.authenticationProviderId = apId then
      (getUserInTeam db tid a.userId).map (fun u => (a, u))
    else none)

/-- `processedProviderIds`: every joined auth's providerId is marked processed
by Phase 1 before Phase 2 runs. -/
def processedIds (db : DB) (tid apId : Nat) : List String :=
  (joinedPairs db tid apId).map (fun pr => pr.1.providerId)

/-- Default-group resolution (userSyncer.ts lines 128-156): by id when the id
option is truthy, else by name when the name option is truthy; a missing
group is logged and ignored. -/
def resolveDefaultGroup (db : DB) (tid : Nat) (gid : Option Nat)
    (gname : Option String) : Option GroupRec :=
  match gid with
  | some g => db.groups.find? (fun gr => decide (gr.id = g ∧ gr.teamId = tid))
  | none =>
      match gname with
      | some n =>
          if n = "" then none
          else db.groups.find? (fun gr => decide (gr.teamId = tid ∧ gr.name = n))
      | none => none

/-- One Phase-1 iteration (userSyncer.ts lines 202-264) on a preloaded
(auth, user) pair: match against the snapshot map, diff/update, reactivate;
else suspend the orphan. -/
def phase1Step (S : List SyncUser) (now : Nat) (st : DB × SyncReport)
    (pr : AuthRec × UserRec) : DB × SyncReport :=
  let db := st.1
  let rep := st.2
  let a := pr.1
  let u := pr.2
  match lookupLast S a.providerId with
  | some p =>
      let patch := computeUpdates u p
      let db1 := if hasUpdates patch then writeUser db u.id (applyPatch · patch) else db
      let rep1 :=
        if hasUpdates patch then { rep with updated := rep.updated + 1 }
        else { rep with unchanged := rep.unchanged + 1 }
      if u.suspendedAt ≠ none then
        (clearSusp db1 u.id, { rep1 with reactivated := rep1.reactivated + 1 })
      else (db1, rep1)
  | none =>
      if u.suspendedAt = none then
        (setSusp db u.id now, { rep with suspended := rep.suspended + 1 })
      else (db, { rep with unchanged := rep.unchanged + 1 })

/-- The per-user state after Phase 1 for a pair `(a, u)`: the row that Phase 1
leaves in the store for this user. -/
def phase1RowResult (S : List SyncUser) (now : Nat)
    (pr : AuthRec × UserRec) : UserRec :=
  let a := pr.1
  let u := pr.2
  match lookupLast S a.providerId with
  | some p =>
      let u1 := applyPatch u (computeUpdates u p)
      if u.suspendedAt ≠ none then
        { u1 with suspendedAt := none, suspendedById := none }
      else u1
  | none =>
      if u.suspendedAt = none then { u with suspendedAt := some now } else u

/-- One Phase-2 iteration (userSyncer.ts lines 267-396) on a snapshot entry:
skip processed ids, reject empty emails, link by case-insensitive email, or
create user + authentication (+ optional default-group membership).  A
conflicting `UserAuthentication.create` fails the transaction: error recorded,
store rolled back. -/
def phase2Step (tid apId : Nat) (team : TeamRec) (dg : Option GroupRec)
    (processed : List String) (st : DB × SyncReport) (s : SyncUser) :
    DB × SyncReport :=
  let db := st.1
  let rep := st.2
  if s.providerId ∈ processed then st
  else if s.email = "" then
    (db, { rep with errors :=
      rep.errors ++ ["Skipping user " ++ s.providerId ++ ": no email address"] })
  else
    match findUserByEmailCI db tid s.email with
    | some u =>
        if authExists db apId s.providerId then
          (db, { rep with errors :=
            rep.errors ++
              ["Failed to create user " ++ s.email ++ ": authentication already exists"] })
        else
          let db1 := { db with auths := db.auths ++ [⟨s.providerId, apId, u.id, []⟩] }
          let patch := computeUpdates u s
          let db2 :=
            if hasUpdates patch then writeUser db1 u.id (applyPatch · patch) else db1
          let rep1 :=
            if hasUpdates patch then { rep with updated := rep.updated + 1 }
            else { rep with unchanged := rep.unchanged + 1 }
          if u.suspendedAt ≠ none then
            (clearSusp db2 u.id, { rep1 with reactivated := rep1.reactivated + 1 })
          else if hasUpdates patch then (db2, rep1)
          else (db2, { rep1 with unchanged := rep1.unchanged + 1 })
    | none =>
        if authExists db apId s.providerId then
          (db, { rep with errors :=
            rep.errors ++
              ["Failed to create user " ++ s.email ++ ": authentication already exists"] })
        else
          let uid := db.nextUserId
          let newU : UserRec :=
            { id := uid, teamId := tid, email := s.email, name := s.name,
              avatarUrl := truthyOrNull s.avatarUrl,
              role := team.defaultUserRole.getD "member",
              suspendedAt := none, suspendedById := none, lastActiveAt := none }
          let db1 :=
            { db with users := db.users ++ [newU],
                      auths := db.auths ++ [⟨s.providerId, apId, uid, []⟩],
                      nextUserId := uid + 1 }
          let rep1 := { rep with created := rep.created + 1 }
          match dg with
          | some g =>
              ({ db1 with groupUsers := db1.groupUsers ++ [⟨uid, g.id, "member"⟩] },
               { rep1 with addedToGroup := rep1.addedToGroup + 1 })
          | none => (db1, rep1)

/-- The empty-snapshot safety error. -/
def emptyListError : String :=
  "Provider returned empty user list - sync aborted to prevent mass suspension"

/-- `userSyncer`: the reconciliation engine.  Returns the report and the
resulting store. -/
def reconcile (db : DB) (now tid apId : Nat) (S : List SyncUser)
    (gid : Option Nat) (gname : Option String) : SyncReport × DB :=
  if S.length = 0 then
    ({ SyncReport.empty with errors := [emptyListError] }, db)
  else
    match db.teams.find? (fun t => decide (t.id = tid)) with
    | none =>
        ({ SyncReport.empty with
            errors := ["Team " ++ toString tid ++ " not found"] }, db)
    | some team =>
        match db.authProviders.find? (fun a => decide (a.id = apId)) with
        | none =>
            ({ SyncReport.empty with
                errors := ["Authentication provider " ++ toString apId ++ " not found"] },
             db)
        | some _ =>
            let dg := resolveDefaultGroup db tid gid gname
            let pairs := joinedPairs db tid apId
            let processed := processedIds db tid apId
            let st1 := pairs.foldl (phase1Step S now) (db, SyncReport.empty)
            let st2 := S.foldl (phase2Step tid apId team dg processed) st1
            (st2.2, st2.1)

/-- A raw Keycloak admin-API user record. -/
structure KUser where
  id : String
  username : String
  email : Option String
  firstName : Option String
  lastName : Option String
  enabled : Bool
deriving Repr, DecidableEq

/-- `buildUserName` (SyncOIDCUsersTask.ts lines 168-179). -/
def buildUserName (u : KUser) : String :=
  if optTruthy u.firstName ∧ optTruthy u.lastName then
    trimStr (u.firstName.getD "" ++ " " ++ u.lastName.getD "")
  else if optTruthy u.firstName then u.firstName.getD ""
  else if optTruthy u.lastName then u.lastName.getD ""
  else if u.username ≠ "" then u.username
  else
    match u.email with
    | some e => if e ≠ "" then e else "Unknown User"
    | none => "Unknown User"

/-- The snapshot normalizer (SyncOIDCUsersTask.ts lines 95-102):
`keycloakUsers.filter((u) => u.email).map(...)`. -/
def normalizeKeycloakUsers (ks : List KUser) : List SyncUser :=
  (ks.filter (fun u => optTruthy u.email)).map (fun u =>
    { providerId := u.id, email := u.email.getD "", name := buildUserName u,
      avatarUrl := none })

/-- The per-binding engine invocation of the scheduled driver
(SyncOIDCUsersTask.ts lines 110-118): no group options are passed. -/
def syncOIDCPerBinding (db : DB) (now : Nat) (ap : APRec)
    (users : List SyncUser) : SyncReport × DB :=
  reconcile db now ap.teamId ap.id users none none

/-- The pagination loop of `KeycloakAdminClient.getAllUsers`
(keycloakAdmin.ts lines 228-260): fetch a page at `first`, append, stop on a
short page, advance by `batchSize`, stop once the offset exceeds 100 000.
The source loops forever when `batchSize = 0`; this total model returns the
accumulator in that (never exercised) case. -/
def getAllUsersGo (fetch : Nat → List KUser) (batchSize : Nat) :
    Nat → List KUser → List KUser := fun first acc =>
  let page := fetch first
  let acc' := acc ++ page
  if page.length < batchSize then acc'
  else if 100000 < first + batchSize then acc'
  else if _hb : 0 < batchSize then getAllUsersGo fetch batchSize (first + batchSize) acc'
  else acc'
termination_by first => 100001 - first
decreasing_by
  simp_wf
  omega

/-- `getAllUsers(batchSize, enabled)`: run the loop from offset 0. -/
def getAllUsers (fetch : Nat → List KUser) (batchSize : Nat) : List KUser :=
  getAllUsersGo fetch batchSize 0 []

/-- C1: for every call to `reconcile` with an empty snapshot the function
returns immediately: all six counters are zero, `errors` is exactly the
mass-suspension message, and the store is returned unchanged (no User's
`suspendedAt` or any other field changes). -/
theorem c1_empty_snapshot_abort (db : DB) (now tid apId : Nat)
    (gid : Option Nat) (gname : Option String) :
    reconcile db now tid apId [] gid gname =
      ({ created := 0, updated := 0, suspended := 0, unchanged := 0,
         reactivated := 0, addedToGroup := 0,
         errors := [emptyListError] }, db) := by
  rfl

/-! ## Concrete fixtures for counterexamples and failing inputs -/

/-- A team with id 1 and no default role. -/
def team1 : TeamRec := ⟨1, none⟩

/-- An enabled oidc provider with id 1 bound to team 1. -/
def ap1 : APRec := ⟨1, 1, "oidc", true, none⟩

/-- A store holding only an invited user (email `invited@x`, no
authentication record). -/
def dbInvited : DB :=
  ⟨[team1], [ap1], [], [⟨1, 1, "invited@x", "N", none, "member", none, none, none⟩],
   [], [], 2⟩

/-- A store holding one user with email `test@example.com` linked to
provider 1 under subject id `g`. -/
def dbLinked : DB :=
  ⟨[team1], [ap1], [],
   [⟨1, 1, "test@example.com", "N", none, "member", none, none, none⟩],
   [⟨"g", 1, 1, []⟩], [], 2⟩

/-- An empty store (team and provider only). -/
def dbEmpty : DB := ⟨[team1], [ap1], [], [], [], [], 1⟩

/-- A snapshot containing two entries with the same providerId `g` and
different emails. -/
def dupSnapshot : List SyncUser :=
  [⟨"g", "a@x", "A", none⟩, ⟨"g", "b@x", "B", none⟩]

/-- C4, failing input: a Phase-2 snapshot entry whose email matches an
existing invited team user with identical attributes.  The link path creates
the UserAuthentication and does not count `created`, but it counts
`unchanged` twice — once inside `updateUserIfNeeded` and once in the
`else if (!updated)` branch (userSyncer.ts lines 304-320, 456) — where the
claim (and §4.C of the spec) require exactly one. -/
theorem c4_link_path_double_counts_unchanged :
    (reconcile dbInvited 0 1 1 [⟨"g1", "invited@x", "N", none⟩] none none).1.unchanged = 2 ∧
    (reconcile dbInvited 0 1 1 [⟨"g1", "invited@x", "N", none⟩] none none).1.created = 0 ∧
    (reconcile dbInvited 0 1 1 [⟨"g1", "invited@x", "N", none⟩] none none).2.auths =
      [⟨"g1", 1, 1, []⟩] := by
  decide

/-- C3, counterexample: user email `test@example.com`, snapshot email
`TEST@EXAMPLE.COM` — equal after lowering, different character-wise.  The
claim asserts the stored email then equals the snapshot email; the code
replaces the email only on a case-insensitive difference, so the stored
email stays `test@example.com`. -/
theorem c3_counterexample_case_only_change_not_adopted :
    lower "test@example.com" = lower "TEST@EXAMPLE.COM" ∧
    "test@example.com" ≠ "TEST@EXAMPLE.COM" ∧
    (getUser (reconcile dbLinked 0 1 1 [⟨"g", "TEST@EXAMPLE.COM", "N", none⟩] none none).2
        1).map (fun u => u.email) = some "test@example.com" ∧
    (reconcile dbLinked 0 1 1 [⟨"g", "TEST@EXAMPLE.COM", "N", none⟩] none none).1.created = 0 := by
  decide

/-- C2, counterexample: a snapshot with a duplicated providerId.  The first
run creates a user from the first entry (the second entry's create fails on
the unique authentication key), but the in-memory map keeps the last entry,
so the second run updates the user towards the other email: `updated = 1`,
not `0`. -/
theorem c2_counterexample_duplicate_provider_id :
    (reconcile (reconcile dbEmpty 0 1 1 dupSnapshot none none).2
        0 1 1 dupSnapshot none none).1.updated = 1 ∧
    ¬ (reconcile (reconcile dbEmpty 0 1 1 dupSnapshot none none).2
        0 1 1 dupSnapshot none none).1.updated = 0 := by
  decide

/-! ## Basic lemmas about patches -/

theorem applyPatch_id (u : UserRec) (p : Patch) : (applyPatch u p).id = u.id := rfl

theorem applyPatch_teamId (u : UserRec) (p : Patch) :
    (applyPatch u p).teamId = u.teamId := rfl

theorem applyPatch_suspendedAt (u : UserRec) (p : Patch) :
    (applyPatch u p).suspendedAt = u.suspendedAt := rfl

theorem applyPatch_suspendedById (u : UserRec) (p : Patch) :
    (applyPatch u p).suspendedById = u.suspendedById := rfl

theorem applyPatch_none (u : UserRec) : applyPatch u ⟨none, none, none⟩ = u := rfl

theorem applyPatch_of_not_hasUpdates {u : UserRec} {p : Patch}
    (h : hasUpdates p = false) : applyPatch u p = u := by
  obtain ⟨n, e, a⟩ := p
  cases n <;> cases e <;> cases a <;> first
  | rfl
  | simp_all [hasUpdates]

/-- Applying the computed diff leaves nothing further to update: the core
idempotence fact about `updateUserIfNeeded`. -/
theorem computeUpdates_applyPatch (u : UserRec) (p : SyncUser) :
    computeUpdates (applyPatch u (computeUpdates u p)) p = ⟨none, none, none⟩ := by
  obtain ⟨pid, pe, pn, pa⟩ := p
  simp only [computeUpdates, applyPatch, Patch.mk.injEq]
  refine ⟨?_, ?_, ?_⟩
  · by_cases hc : pn ≠ "" ∧ u.name ≠ pn <;> simp [hc]
  · by_cases he : pe ≠ "" ∧ lower u.email ≠ lower pe <;> simp [he]
  · cases pa with
    | none => simp
    | some a =>
        by_cases ha : a ≠ "" ∧ u.avatarUrl ≠ some a ∧ avatarOverwritable u.avatarUrl = true <;>
          simp [ha]

theorem hasUpdates_computeUpdates_applyPatch (u : UserRec) (p : SyncUser) :
    hasUpdates (computeUpdates (applyPatch u (computeUpdates u p)) p) = false := by
  rw [computeUpdates_applyPatch]
  rfl

theorem lower_applyPatch_email {u : UserRec} {p : SyncUser} (hp : p.email ≠ "") :
    lower (applyPatch u (computeUpdates u p)).email = lower p.email := by
  simp only [applyPatch, computeUpdates]
  by_cases he : lower u.email ≠ lower p.email
  · simp [hp, he]
  · push_neg at he
    simp [he]

theorem applyPatch_email_of_ci_eq {u : UserRec} {p : SyncUser}
    (h : lower u.email = lower p.email) :
    (applyPatch u (computeUpdates u p)).email = u.email := by
  simp [applyPatch, computeUpdates, h]

/-- A freshly created user needs no further update against its own entry. -/
theorem hasUpdates_newUser (uid tid : Nat) (s : SyncUser) (role : String) :
    hasUpdates (computeUpdates
      { id := uid, teamId := tid, email := s.email, name := s.name,
        avatarUrl := truthyOrNull s.avatarUrl, role := role,
        suspendedAt := none, suspendedById := none, lastActiveAt := none } s) = false := by
  simp only [computeUpdates, hasUpdates]
  have hn : ¬ (s.name ≠ "" ∧ s.name ≠ s.name) := by simp
  have he : ¬ (s.email ≠ "" ∧ lower s.email ≠ lower s.email) := by simp
  simp only [hn, he, if_false]
  cases hpa : s.avatarUrl with
  | none => simp
  | some a =>
      by_cases ha : a = ""
      · simp [truthyOrNull, hpa, ha]
      · simp [truthyOrNull, hpa, ha]

/-! ## Lemmas about lookups -/

theorem find?_key_unique {l : List UserRec} {q : UserRec → Bool} {u : UserRec} {k : Nat}
    (hnd : (l.map (fun w => w.id)).Nodup)
    (hq : ∀ w, q w = true → w.id = k)
    (hu : u ∈ l) (hqu : q u = true) :
    l.find? q = some u := by
  induction l with
  | nil => cases hu
  | cons h t ih =>
      simp only [List.map_cons, List.nodup_cons] at hnd
      rcases List.mem_cons.mp hu with rfl | hmem
      · exact List.find?_cons_of_pos _ hqu
      · by_cases hqh : q h = true
        · exfalso
          have h1 := hq _ hqh
          have h2 := hq _ hqu
          exact hnd.1 (h1 ▸ h2 ▸ List.mem_map_of_mem (fun w => w.id) hmem)
        · rw [List.find?_cons_of_neg _ (by simpa using hqh)]
          exact ih hnd.2 hmem

theorem getUser_eq_of_mem {db : DB} {u : UserRec}
    (hnd : (db.users.map (fun w => w.id)).Nodup) (hu : u ∈ db.users) :
    getUser db u.id = some u := by
  apply find?_key_unique hnd (fun w hw => by simpa using hw) hu
  simp

theorem getUser_some {db : DB} {uid : Nat} {u : UserRec}
    (h : getUser db uid = some u) : u ∈ db.users ∧ u.id = uid := by
  refine ⟨List.mem_of_find?_eq_some h, ?_⟩
  have := List.find?_some h
  simpa using this

theorem getUserInTeam_some {db : DB} {tid uid : Nat} {u : UserRec}
    (h : getUserInTeam db tid uid = some u) :
    u ∈ db.users ∧ u.id = uid ∧ u.teamId = tid := by
  refine ⟨List.mem_of_find?_eq_some h, ?_⟩
  have := List.find?_some h
  simpa using this

theorem getUserInTeam_eq_some_iff {db : DB} {tid uid : Nat} {u : UserRec}
    (hnd : (db.users.map (fun w => w.id)).Nodup) :
    getUserInTeam db tid uid = some u ↔
      getUser db uid = some u ∧ u.teamId = tid := by
  constructor
  · intro h
    obtain ⟨hm, hid, ht⟩ := getUserInTeam_some h
    exact ⟨hid ▸ getUser_eq_of_mem hnd hm, ht⟩
  · rintro ⟨hg, ht⟩
    obtain ⟨hm, hid⟩ := getUser_some hg
    apply find?_key_unique hnd (fun w hw => by simp at hw; exact hw.1) hm
    simp [hid, ht]

theorem getUserInTeam_eq_none {db : DB} {tid uid : Nat} :
    getUserInTeam db tid uid = none ↔
      ∀ w ∈ db.users, ¬ (w.id = uid ∧ w.teamId = tid) := by
  unfold getUserInTeam
  rw [List.find?_eq_none]
  simp

theorem findUserByEmailCI_some {db : DB} {tid : Nat} {em : String} {u : UserRec}
    (h : findUserByEmailCI db tid em = some u) :
    u ∈ db.users ∧ u.teamId = tid ∧ lower u.email = lower em := by
  refine ⟨List.mem_of_find?_eq_some h, ?_⟩
  have := List.find?_some h
  simpa using this

theorem findUserByEmailCI_eq_none {db : DB} {tid : Nat} {em : String} :
    findUserByEmailCI db tid em = none ↔
      ∀ w ∈ db.users, ¬ (w.teamId = tid ∧ lower w.email = lower em) := by
  unfold findUserByEmailCI
  rw [List.find?_eq_none]
  simp


/-- `find?` returns the given member when the predicate determines a key and
keys are unique in the list. -/
theorem find?_unique_by_key {α κ : Type} {l : List α} {key : α → κ} {q : α → Bool}
    {u : α} {k : κ}
    (hnd : (l.map key).Nodup) (hq : ∀ w, q w = true → key w = k)
    (hu : u ∈ l) (hqu : q u = true) :
    l.find? q = some u := by
  induction l with
  | nil => cases hu
  | cons h t ih =>
      simp only [List.map_cons, List.nodup_cons] at hnd
      rcases List.mem_cons.mp hu with rfl | hmem
      · exact List.find?_cons_of_pos _ hqu
      · by_cases hqh : q h = true
        · exfalso
          have h1 := hq _ hqh
          have h2 := hq _ hqu
          exact hnd.1 (h1 ▸ h2 ▸ List.mem_map_of_mem key hmem)
        · rw [List.find?_cons_of_neg _ (by simpa using hqh)]
          exact ih hnd.2 hmem

/-! ## Lemmas about row writes -/

theorem writeUser_structure (db : DB) (uid : Nat) (f : UserRec → UserRec) :
    (writeUser db uid f).teams = db.teams ∧
    (writeUser db uid f).authProviders = db.authProviders ∧
    (writeUser db uid f).groups = db.groups ∧
    (writeUser db uid f).auths = db.auths ∧
    (writeUser db uid f).groupUsers = db.groupUsers ∧
    (writeUser db uid f).nextUserId = db.nextUserId :=
  ⟨rfl, rfl, rfl, rfl, rfl, rfl⟩

theorem getUser_writeUser_of_ne {db : DB} {uid v : Nat} (f : UserRec → UserRec)
    (hf : ∀ w, (f w).id = w.id) (hne : v ≠ uid) :
    getUser (writeUser db uid f) v = getUser db v := by
  unfold getUser writeUser
  induction db.users with
  | nil => rfl
  | cons h t ih =>
      simp only [List.map_cons]
      by_cases hh : h.id = uid
      · have h1 : ¬ ((f h).id = v) := by rw [hf h, hh]; exact fun hx => hne hx.symm
        have h2 : ¬ (h.id = v) := by rw [hh]; exact fun hx => hne hx.symm
        rw [if_pos hh, List.find?_cons_of_neg _ (by simpa using h1),
          List.find?_cons_of_neg _ (by simpa using h2)]
        exact ih
      · by_cases hv : h.id = v
        · rw [if_neg hh, List.find?_cons_of_pos _ (by simpa using hv),
            List.find?_cons_of_pos _ (by simpa using hv)]
        · rw [if_neg hh, List.find?_cons_of_neg _ (by simpa using hv),
            List.find?_cons_of_neg _ (by simpa using hv)]
          exact ih

theorem getUser_writeUser_self {db : DB} {uid : Nat} (f : UserRec → UserRec)
    (hf : ∀ w, (f w).id = w.id) :
    getUser (writeUser db uid f) uid = (getUser db uid).map f := by
  unfold getUser writeUser
  induction db.users with
  | nil => rfl
  | cons h t ih =>
      simp only [List.map_cons]
      by_cases hh : h.id = uid
      · rw [if_pos hh, List.find?_cons_of_pos _ (by simp [hf h, hh]),
          List.find?_cons_of_pos _ (by simp [hh])]
        rfl
      · rw [if_neg hh, List.find?_cons_of_neg _ (by simp [hh]),
          List.find?_cons_of_neg _ (by simp [hh])]
        exact ih

theorem writeUser_ids {db : DB} (uid : Nat) (f : UserRec → UserRec)
    (hf : ∀ w, (f w).id = w.id) :
    (writeUser db uid f).users.map (fun w => w.id) = db.users.map (fun w => w.id) := by
  unfold writeUser
  simp only [List.map_map]
  apply List.map_congr_left
  intro w _
  by_cases hh : w.id = uid <;> simp [hh, hf w]

/-- The row update performed by `clearSusp`. -/
def clearFields (w : UserRec) : UserRec :=
  { w with suspendedAt := none, suspendedById := none }

theorem getUser_clearSusp_self (db : DB) (uid : Nat) :
    getUser (clearSusp db uid) uid = (getUser db uid).map clearFields :=
  getUser_writeUser_self clearFields (fun _ => rfl)

theorem getUser_clearSusp_of_ne {db : DB} {uid v : Nat} (hne : v ≠ uid) :
    getUser (clearSusp db uid) v = getUser db v :=
  getUser_writeUser_of_ne clearFields (fun _ => rfl) hne

/-- The row update performed by `setSusp`. -/
def suspendFields (now : Nat) (w : UserRec) : UserRec :=
  { w with suspendedAt := some now }

theorem getUser_setSusp_self (db : DB) (uid now : Nat) :
    getUser (setSusp db uid now) uid = (getUser db uid).map (suspendFields now) :=
  getUser_writeUser_self (suspendFields now) (fun _ => rfl)

theorem getUser_setSusp_of_ne {db : DB} {uid v : Nat} {now : Nat} (hne : v ≠ uid) :
    getUser (setSusp db uid now) v = getUser db v :=
  getUser_writeUser_of_ne (suspendFields now) (fun _ => rfl) hne

/-! ## Lemmas about the snapshot map -/

theorem lookupLast_some {S : List SyncUser} {pid : String} {p : SyncUser}
    (h : lookupLast S pid = some p) : p ∈ S ∧ p.providerId = pid := by
  unfold lookupLast at h
  refine ⟨List.mem_reverse.mp (List.mem_of_find?_eq_some h), ?_⟩
  have := List.find?_some h
  simpa using this

theorem lookupLast_eq_none {S : List SyncUser} {pid : String} :
    lookupLast S pid = none ↔ ∀ s ∈ S, s.providerId ≠ pid := by
  unfold lookupLast
  rw [List.find?_eq_none]
  constructor
  · intro h s hs
    simpa using h s (List.mem_reverse.mpr hs)
  · intro h s hs
    simpa using h s (List.mem_reverse.mp hs)

theorem lookupLast_isSome_of_mem {S : List SyncUser} {s : SyncUser} (hs : s ∈ S) :
    ∃ p, lookupLast S s.providerId = some p := by
  cases hl : lookupLast S s.providerId with
  | some p => exact ⟨p, rfl⟩
  | none => exact absurd rfl (lookupLast_eq_none.mp hl s hs)

theorem lookupLast_of_nodup {S : List SyncUser} {s : SyncUser}
    (hnd : (S.map (fun x => x.providerId)).Nodup) (hs : s ∈ S) :
    lookupLast S s.providerId = some s := by
  unfold lookupLast
  apply @find?_unique_by_key SyncUser String S.reverse (fun x => x.providerId) _ s
    s.providerId
  · rw [List.map_reverse]
    exact List.nodup_reverse.mpr hnd
  · intro w hw
    simpa using hw
  · exact List.mem_reverse.mpr hs
  · simp

/-! ## Lemmas about the authentication unique key -/

theorem authExists_eq_false {db : DB} {apId : Nat} {pid : String} :
    authExists db apId pid = false ↔
      ∀ a ∈ db.auths, ¬ (a.authenticationProviderId = apId ∧ a.providerId = pid) := by
  unfold authExists
  rw [List.any_eq_false]
  simp

theorem authExists_eq_true {db : DB} {apId : Nat} {pid : String} :
    authExists db apId pid = true ↔
      ∃ a ∈ db.auths, a.authenticationProviderId = apId ∧ a.providerId = pid := by
  unfold authExists
  rw [List.any_eq_true]
  simp

/-! ## Lemmas about the Phase-1 join -/

theorem mem_joinedPairs {db : DB} {tid apId : Nat} {pr : AuthRec × UserRec} :
    pr ∈ joinedPairs db tid apId ↔
      pr.1 ∈ db.auths ∧ pr.1.authenticationProviderId = apId ∧
      getUserInTeam db tid pr.1.userId = some pr.2 := by
  obtain ⟨a0, u0⟩ := pr
  unfold joinedPairs
  rw [List.mem_filterMap]
  constructor
  · rintro ⟨a, ha, hfa⟩
    by_cases hap : a.authenticationProviderId = apId
    · rw [if_pos hap] at hfa
      cases hg : getUserInTeam db tid a.userId with
      | none => rw [hg] at hfa; cases hfa
      | some u =>
          rw [hg] at hfa
          simp only [Option.map_some', Option.some.injEq, Prod.mk.injEq] at hfa
          obtain ⟨rfl, rfl⟩ := hfa
          exact ⟨ha, hap, hg⟩
    · rw [if_neg hap] at hfa; cases hfa
  · rintro ⟨ha, hap, hg⟩
    refine ⟨a0, ha, ?_⟩
    rw [if_pos hap, hg]
    rfl

theorem mem_processedIds {db : DB} {tid apId : Nat} {pr : AuthRec × UserRec}
    (hpr : pr ∈ joinedPairs db tid apId) :
    pr.1.providerId ∈ processedIds db tid apId :=
  List.mem_map_of_mem (fun q => q.1.providerId) hpr

/-- C5: on the Phase-1 match path (an existing authentication whose providerId
is in the snapshot), the update is applied and `updated` is incremented
exactly when the attribute diff is non-empty, otherwise `unchanged` is
incremented; independently, `reactivated` is incremented exactly once and
both `suspendedAt` and `suspendedById` are cleared exactly when the user was
suspended — one user can increment both `updated` and `reactivated`, each
exactly once, while `suspended` and `created` are untouched. -/
theorem c5_phase1_match_path (S : List SyncUser) (now : Nat) (db : DB)
    (rep : SyncReport) (a : AuthRec) (u : UserRec) (p : SyncUser)
    (hmatch : lookupLast S a.providerId = some p)
    (hrow : getUser db u.id = some u) :
    ((phase1Step S now (db, rep) (a, u)).2.updated =
        rep.updated + (if hasUpdates (computeUpdates u p) then 1 else 0)) ∧
    ((phase1Step S now (db, rep) (a, u)).2.unchanged =
        rep.unchanged + (if hasUpdates (computeUpdates u p) then 0 else 1)) ∧
    ((phase1Step S now (db, rep) (a, u)).2.reactivated =
        rep.reactivated + (if u.suspendedAt = none then 0 else 1)) ∧
    ((phase1Step S now (db, rep) (a, u)).2.suspended = rep.suspended) ∧
    ((phase1Step S now (db, rep) (a, u)).2.created = rep.created) ∧
    (getUser (phase1Step S now (db, rep) (a, u)).1 u.id =
        some (phase1RowResult S now (a, u))) ∧
    ((phase1RowResult S now (a, u)).name = (applyPatch u (computeUpdates u p)).name ∧
      (phase1RowResult S now (a, u)).email = (applyPatch u (computeUpdates u p)).email ∧
      (phase1RowResult S now (a, u)).avatarUrl =
        (applyPatch u (computeUpdates u p)).avatarUrl) ∧
    (u.suspendedAt ≠ none →
      (phase1RowResult S now (a, u)).suspendedAt = none ∧
      (phase1RowResult S now (a, u)).suspendedById = none) := by
  have hid : ∀ w : UserRec, (applyPatch w (computeUpdates u p)).id = w.id :=
    fun w => rfl
  by_cases hu : hasUpdates (computeUpdates u p) = true <;>
    by_cases hs : u.suspendedAt = none
  · have hstep : phase1Step S now (db, rep) (a, u) =
        (writeUser db u.id (fun w => applyPatch w (computeUpdates u p)),
         { rep with updated := rep.updated + 1 }) := by
      simp only [phase1Step, hmatch]
      rw [if_pos hu, if_pos hu, if_neg (by simp [hs])]
    have hrowr : phase1RowResult S now (a, u) = applyPatch u (computeUpdates u p) := by
      simp only [phase1RowResult, hmatch]
      rw [if_neg (by simp [hs])]
    rw [hstep, hrowr]
    refine ⟨by simp [hu], by simp [hu], by simp [hs], rfl, rfl, ?_, ⟨rfl, rfl, rfl⟩,
      fun h => absurd hs h⟩
    rw [getUser_writeUser_self (fun w => applyPatch w (computeUpdates u p)) hid, hrow]
    rfl
  · have hstep : phase1Step S now (db, rep) (a, u) =
        (clearSusp (writeUser db u.id (fun w => applyPatch w (computeUpdates u p))) u.id,
         { rep with updated := rep.updated + 1, reactivated := rep.reactivated + 1 }) := by
      simp only [phase1Step, hmatch]
      rw [if_pos hu, if_pos hu, if_pos hs]
    have hrowr : phase1RowResult S now (a, u) =
        { applyPatch u (computeUpdates u p) with
            suspendedAt := none, suspendedById := none } := by
      simp only [phase1RowResult, hmatch]
      rw [if_pos hs]
    rw [hstep, hrowr]
    refine ⟨by simp [hu], by simp [hu], by simp [hs], rfl, rfl, ?_, ⟨rfl, rfl, rfl⟩,
      fun _ => ⟨rfl, rfl⟩⟩
    rw [getUser_clearSusp_self,
      getUser_writeUser_self (fun w => applyPatch w (computeUpdates u p)) hid, hrow]
    rfl
  · have hstep : phase1Step S now (db, rep) (a, u) =
        (db, { rep with unchanged := rep.unchanged + 1 }) := by
      simp only [phase1Step, hmatch]
      rw [if_neg (by simp [hs]), if_neg (by simp [hu]), if_neg (by simp [hu])]
    have hrowr : phase1RowResult S now (a, u) = u := by
      simp only [phase1RowResult, hmatch]
      rw [if_neg (by simp [hs]), applyPatch_of_not_hasUpdates (by simpa using hu)]
    rw [hstep, hrowr]
    refine ⟨by simp [hu], by simp [hu], by simp [hs], rfl, rfl, hrow,
      ?_, fun h => absurd hs h⟩
    rw [applyPatch_of_not_hasUpdates (by simpa using hu)]
    exact ⟨rfl, rfl, rfl⟩
  · have hstep : phase1Step S now (db, rep) (a, u) =
        (clearSusp db u.id,
         { rep with unchanged := rep.unchanged + 1, reactivated := rep.reactivated + 1 }) := by
      simp only [phase1Step, hmatch]
      rw [if_pos (by simpa using hs), if_neg (by simp [hu]), if_neg (by simp [hu])]
    have hrowr : phase1RowResult S now (a, u) =
        { u with suspendedAt := none, suspendedById := none } := by
      simp only [phase1RowResult, hmatch]
      rw [if_pos (by simpa using hs), applyPatch_of_not_hasUpdates (by simpa using hu)]
    rw [hstep, hrowr]
    refine ⟨by simp [hu], by simp [hu], by simp [hs], rfl, rfl, ?_, ?_, fun _ => ⟨rfl, rfl⟩⟩
    · rw [getUser_clearSusp_self, hrow]
      rfl
    · rw [applyPatch_of_not_hasUpdates (by simpa using hu)]
      exact ⟨rfl, rfl, rfl⟩

/-- C7: within one reconciliation, a snapshot entry whose providerId already
has an authentication for this provider joined to a team user is matched by
Phase 1 (the snapshot map lookup succeeds, so the match path, never the
orphan/suspend path, runs for that pair), its providerId is in the processed
set that Phase 1 builds before Phase 2 runs, and the Phase-2 step on that
entry is the identity on any state — the entry is never handled by the
create/link path. -/
theorem c7_phase_ordering (db : DB) (tid apId : Nat) (S : List SyncUser)
    (pr : AuthRec × UserRec) (s : SyncUser)
    (hpr : pr ∈ joinedPairs db tid apId) (hs : s ∈ S)
    (hpid : s.providerId = pr.1.providerId) :
    (∃ p, lookupLast S pr.1.providerId = some p) ∧
    s.providerId ∈ processedIds db tid apId ∧
    (∀ (team : TeamRec) (dg : Option GroupRec) (db' : DB) (rep' : SyncReport),
      phase2Step tid apId team dg (processedIds db tid apId) (db', rep') s =
        (db', rep')) := by
  have hmem : s.providerId ∈ processedIds db tid apId := by
    rw [hpid]; exact mem_processedIds hpr
  refine ⟨?_, hmem, ?_⟩
  · rw [← hpid]; exact lookupLast_isSome_of_mem hs
  · intro team dg db' rep'
    simp only [phase2Step, if_pos hmem]

/-! ## Structural preservation lemmas for the two phases -/

theorem phase1Step_structure (S : List SyncUser) (now : Nat)
    (st : DB × SyncReport) (pr : AuthRec × UserRec) :
    (phase1Step S now st pr).1.teams = st.1.teams ∧
    (phase1Step S now st pr).1.authProviders = st.1.authProviders ∧
    (phase1Step S now st pr).1.groups = st.1.groups ∧
    (phase1Step S now st pr).1.auths = st.1.auths ∧
    (phase1Step S now st pr).1.groupUsers = st.1.groupUsers ∧
    (phase1Step S now st pr).1.nextUserId = st.1.nextUserId := by
  unfold phase1Step
  cases hl : lookupLast S pr.1.providerId <;> simp only [hl] <;> split_ifs <;>
    simp [clearSusp, setSusp, writeUser]

theorem phase1Step_rep (S : List SyncUser) (now : Nat)
    (st : DB × SyncReport) (pr : AuthRec × UserRec) :
    (phase1Step S now st pr).2.created = st.2.created ∧
    (phase1Step S now st pr).2.addedToGroup = st.2.addedToGroup ∧
    (phase1Step S now st pr).2.errors = st.2.errors := by
  unfold phase1Step
  cases hl : lookupLast S pr.1.providerId <;> simp only [hl] <;> split_ifs <;> simp

theorem phase1_fold_structure (S : List SyncUser) (now : Nat)
    (ps : List (AuthRec × UserRec)) (st : DB × SyncReport) :
    (ps.foldl (phase1Step S now) st).1.teams = st.1.teams ∧
    (ps.foldl (phase1Step S now) st).1.authProviders = st.1.authProviders ∧
    (ps.foldl (phase1Step S now) st).1.groups = st.1.groups ∧
    (ps.foldl (phase1Step S now) st).1.auths = st.1.auths ∧
    (ps.foldl (phase1Step S now) st).1.groupUsers = st.1.groupUsers ∧
    (ps.foldl (phase1Step S now) st).1.nextUserId = st.1.nextUserId ∧
    (ps.foldl (phase1Step S now) st).2.created = st.2.created ∧
    (ps.foldl (phase1Step S now) st).2.addedToGroup = st.2.addedToGroup ∧
    (ps.foldl (phase1Step S now) st).2.errors = st.2.errors := by
  induction ps generalizing st with
  | nil => exact ⟨rfl, rfl, rfl, rfl, rfl, rfl, rfl, rfl, rfl⟩
  | cons h t ih =>
      simp only [List.foldl_cons]
      obtain ⟨s1, s2, s3, s4, s5, s6, r1, r2, r3⟩ := ih (phase1Step S now st h)
      obtain ⟨t1, t2, t3, t4, t5, t6⟩ := phase1Step_structure S now st h
      obtain ⟨q1, q2, q3⟩ := phase1Step_rep S now st h
      exact ⟨s1.trans t1, s2.trans t2, s3.trans t3, s4.trans t4, s5.trans t5,
        s6.trans t6, r1.trans q1, r2.trans q2, r3.trans q3⟩

theorem phase2Step_group_none (tid apId : Nat) (team : TeamRec)
    (processed : List String) (st : DB × SyncReport) (s : SyncUser) :
    (phase2Step tid apId team none processed st s).1.groupUsers = st.1.groupUsers ∧
    (phase2Step tid apId team none processed st s).2.addedToGroup = st.2.addedToGroup := by
  unfold phase2Step
  split_ifs
  · exact ⟨rfl, rfl⟩
  · exact ⟨rfl, rfl⟩
  · cases hf : findUserByEmailCI st.1 tid s.email <;> simp only [hf] <;> split_ifs <;>
      simp [clearSusp, writeUser]

theorem phase2_fold_group_none (tid apId : Nat) (team : TeamRec)
    (processed : List String) (es : List SyncUser) (st : DB × SyncReport) :
    ((es.foldl (phase2Step tid apId team none processed) st).1.groupUsers =
      st.1.groupUsers) ∧
    ((es.foldl (phase2Step tid apId team none processed) st).2.addedToGroup =
      st.2.addedToGroup) := by
  induction es generalizing st with
  | nil => exact ⟨rfl, rfl⟩
  | cons h t ih =>
      simp only [List.foldl_cons]
      obtain ⟨s1, s2⟩ := ih (phase2Step tid apId team none processed st h)
      obtain ⟨t1, t2⟩ := phase2Step_group_none tid apId team processed st h
      exact ⟨s1.trans t1, s2.trans t2⟩

theorem resolveDefaultGroup_none (db : DB) (tid : Nat) :
    resolveDefaultGroup db tid none none = none := rfl

/-- C10: the scheduled driver invokes the engine with no `defaultGroupId` and
no `defaultGroupName`, so a scheduled sync never creates a `GroupUser` row and
always reports `addedToGroup = 0`, regardless of the provider's
`syncDefaultGroupId` setting (the theorem quantifies over the whole
`AuthenticationProvider` row, including that field). -/
theorem c10_scheduled_sync_never_adds_to_group (db : DB) (now : Nat)
    (ap : APRec) (users : List SyncUser) :
    (syncOIDCPerBinding db now ap users).1.addedToGroup = 0 ∧
    (syncOIDCPerBinding db now ap users).2.groupUsers = db.groupUsers := by
  unfold syncOIDCPerBinding reconcile
  by_cases hlen : users.length = 0
  · rw [if_pos hlen]
    exact ⟨rfl, rfl⟩
  · rw [if_neg hlen]
    cases db.teams.find? (fun t => decide (t.id = ap.teamId)) with
    | none => exact ⟨rfl, rfl⟩
    | some team =>
        cases db.authProviders.find? (fun a => decide (a.id = ap.id)) with
        | none => exact ⟨rfl, rfl⟩
        | some _ =>
            simp only [resolveDefaultGroup_none]
            obtain ⟨h1, h2⟩ := phase2_fold_group_none ap.teamId ap.id team
              (processedIds db ap.teamId ap.id) users
              ((joinedPairs db ap.teamId ap.id).foldl (phase1Step users now)
                (db, SyncReport.empty))
            have hp := phase1_fold_structure users now (joinedPairs db ap.teamId ap.id)
              (db, SyncReport.empty)
            exact ⟨h2.trans hp.2.2.2.2.2.2.2.1, h1.trans hp.2.2.2.2.1⟩

/-! ## Authentication uniqueness (C6) -/

/-- No two `UserAuthentication` rows share the same
(authenticationProviderId, providerId) pair. -/
def AuthUnique (l : List AuthRec) : Prop :=
  l.Pairwise (fun a b =>
    ¬ (a.authenticationProviderId = b.authenticationProviderId ∧
        a.providerId = b.providerId))

theorem authUnique_append_of_not_exists {l : List AuthRec} {apId : Nat}
    {pid : String} {uid : Nat} {scopes : List String}
    (h : AuthUnique l)
    (hne : ∀ a ∈ l, ¬ (a.authenticationProviderId = apId ∧ a.providerId = pid)) :
    AuthUnique (l ++ [⟨pid, apId, uid, scopes⟩]) := by
  unfold AuthUnique at h ⊢
  rw [List.pairwise_append]
  refine ⟨h, List.pairwise_singleton _ _, ?_⟩
  intro a ha b hb
  simp only [List.mem_singleton] at hb
  subst hb
  exact fun hc => hne a ha (by simpa using hc)

theorem phase2Step_authUnique (tid apId : Nat) (team : TeamRec)
    (dg : Option GroupRec) (processed : List String) (st : DB × SyncReport)
    (s : SyncUser) (h : AuthUnique st.1.auths) :
    AuthUnique (phase2Step tid apId team dg processed st s).1.auths := by
  unfold phase2Step
  split_ifs
  · exact h
  · exact h
  · cases hf : findUserByEmailCI st.1 tid s.email with
    | some u =>
        simp only [hf]
        by_cases hae : authExists st.1 apId s.providerId = true
        · rw [if_pos hae]
          exact h
        · rw [if_neg hae]
          have hne := authExists_eq_false.mp (by simpa using hae)
          by_cases hup : hasUpdates (computeUpdates u s) = true <;>
            by_cases hsu : u.suspendedAt = none <;>
            simp only [hup, hsu] <;> split_ifs <;>
            simp only [clearSusp, writeUser] <;>
            exact authUnique_append_of_not_exists h hne
    | none =>
        simp only [hf]
        by_cases hae : authExists st.1 apId s.providerId = true
        · rw [if_pos hae]
          exact h
        · rw [if_neg hae]
          have hne := authExists_eq_false.mp (by simpa using hae)
          cases dg <;> simp only [] <;>
            exact authUnique_append_of_not_exists h hne

theorem phase2_fold_authUnique (tid apId : Nat) (team : TeamRec)
    (dg : Option GroupRec) (processed : List String) (es : List SyncUser)
    (st : DB × SyncReport) (h : AuthUnique st.1.auths) :
    AuthUnique ((es.foldl (phase2Step tid apId team dg processed) st).1.auths) := by
  induction es generalizing st with
  | nil => exact h
  | cons e t ih =>
      simp only [List.foldl_cons]
      exact ih _ (phase2Step_authUnique tid apId team dg processed st e h)

/-- C6: after every successful reconcile call — for any snapshot, including
snapshots containing two entries with the same providerId — no two
`UserAuthentication` rows share the same
(authenticationProviderId, providerId) pair, provided the store satisfied
the invariant before the call.  Phase 1 never creates authentications, and
every Phase-2 create is guarded by the unique key: a conflicting create
fails its transaction and is reported as an error instead. -/
theorem c6_authentication_uniqueness (db : DB) (now tid apId : Nat)
    (S : List SyncUser) (gid : Option Nat) (gname : Option String)
    (h : AuthUnique db.auths) :
    AuthUnique ((reconcile db now tid apId S gid gname).2.auths) := by
  unfold reconcile
  by_cases hlen : S.length = 0
  · rw [if_pos hlen]
    exact h
  · rw [if_neg hlen]
    cases db.teams.find? (fun t => decide (t.id = tid)) with
    | none => exact h
    | some team =>
        cases db.authProviders.find? (fun a => decide (a.id = apId)) with
        | none => exact h
        | some _ =>
            apply phase2_fold_authUnique
            have hp := phase1_fold_structure S now (joinedPairs db tid apId)
              (db, SyncReport.empty)
            rw [hp.2.2.2.1]
            exact h

/-- C6 witness: the invariant hypothesis holds for the concrete linked store
and is preserved through a run on the duplicate-providerId snapshot. -/
theorem c6_authentication_uniqueness_witness :
    AuthUnique dbLinked.auths ∧
    AuthUnique ((reconcile dbLinked 0 1 1 dupSnapshot none none).2.auths) :=
  ⟨by unfold AuthUnique; decide,
   c6_authentication_uniqueness dbLinked 0 1 1 dupSnapshot none none
     (by unfold AuthUnique; decide)⟩

/-! ## Witnesses for C5 and C7 -/

/-- A suspended user whose name differs from the snapshot entry. -/
def u5c : UserRec := ⟨1, 1, "b@x", "A", none, "member", some 3, some 9, none⟩

/-- The store holding `u5c` linked under subject id `g`. -/
def dbC5 : DB := ⟨[team1], [ap1], [], [u5c], [⟨"g", 1, 1, []⟩], [], 2⟩

/-- The single-entry snapshot matching `u5c` with a new name. -/
def p5c : SyncUser := ⟨"g", "b@x", "B", none⟩

/-- C5 witness: at a concrete suspended user with a changed name, one Phase-1
match step increments both `updated` and `reactivated` exactly once and
clears the suspension fields. -/
theorem c5_phase1_match_path_witness :
    (phase1Step [p5c] 7 (dbC5, SyncReport.empty) (⟨"g", 1, 1, []⟩, u5c)).2.updated = 1 ∧
    (phase1Step [p5c] 7 (dbC5, SyncReport.empty) (⟨"g", 1, 1, []⟩, u5c)).2.reactivated = 1 ∧
    (phase1Step [p5c] 7 (dbC5, SyncReport.empty) (⟨"g", 1, 1, []⟩, u5c)).2.unchanged = 0 ∧
    (getUser (phase1Step [p5c] 7 (dbC5, SyncReport.empty) (⟨"g", 1, 1, []⟩, u5c)).1
        1).map (fun w => (w.name, w.suspendedAt, w.suspendedById)) =
      some ("B", none, none) := by
  obtain ⟨h1, h2, h3, _, _, h6, _, _⟩ :=
    c5_phase1_match_path [p5c] 7 dbC5 SyncReport.empty ⟨"g", 1, 1, []⟩ u5c p5c
      (by decide) (by decide)
  refine ⟨?_, ?_, ?_, ?_⟩
  · rw [h1]; decide
  · rw [h3]; decide
  · rw [h2]; decide
  · rw [show getUser (phase1Step [p5c] 7 (dbC5, SyncReport.empty)
          (⟨"g", 1, 1, []⟩, u5c)).1 1 =
        some (phase1RowResult [p5c] 7 (⟨"g", 1, 1, []⟩, u5c)) from h6]
    decide

/-- C7 witness: the concrete linked store and matching snapshot entry — the
entry is in the processed set and the Phase-2 step leaves a state untouched. -/
theorem c7_phase_ordering_witness :
    "g" ∈ processedIds dbLinked 1 1 ∧
    phase2Step 1 1 team1 none (processedIds dbLinked 1 1)
      (dbEmpty, SyncReport.empty) ⟨"g", "test@example.com", "N", none⟩ =
      (dbEmpty, SyncReport.empty) := by
  have h := c7_phase_ordering dbLinked 1 1 [⟨"g", "test@example.com", "N", none⟩]
    (⟨"g", 1, 1, []⟩, ⟨1, 1, "test@example.com", "N", none, "member", none, none, none⟩)
    ⟨"g", "test@example.com", "N", none⟩ (by decide) (by decide) (by decide)
  exact ⟨h.2.1, h.2.2 team1 none dbEmpty SyncReport.empty⟩

/-! ## The snapshot normalizer (C8) -/

/-- A raw record without any email and a valid record, for the pipeline. -/
def ks8 : List KUser :=
  [⟨"u0", "nomail", none, none, none, true⟩,
   ⟨"u1", "v", some "v@x", some "Vee", none, true⟩]

/-- C8, counterexample: the normalizer drops the record without an email
silently — the prepared snapshot contains only the valid record, and the full
scheduled pipeline report contains no error entry at all (in particular none
mentioning providerId `u0`), where the claim requires one per dropped
record. -/
theorem c8_counterexample_silent_drop :
    normalizeKeycloakUsers ks8 = [⟨"u1", "v@x", "Vee", none⟩] ∧
    (syncOIDCPerBinding dbEmpty 0 ap1 (normalizeKeycloakUsers ks8)).1.errors = [] := by
  decide

/-- The display-name composition order, written from the spec's words:
`"first last"` if both present; else first; else last; else username; else
email; else `"Unknown User"`. -/
def displayNameSpec (u : KUser) : String :=
  if optTruthy u.firstName ∧ optTruthy u.lastName then
    trimStr (u.firstName.getD "" ++ " " ++ u.lastName.getD "")
  else if optTruthy u.firstName then u.firstName.getD ""
  else if optTruthy u.lastName then u.lastName.getD ""
  else if u.username ≠ "" then u.username
  else if optTruthy u.email then u.email.getD ""
  else "Unknown User"

/-- The normalizer behaviour, written from the spec's words as amended:
a record lacking an email (absent or empty) is dropped silently, with no
error record; a record with an email becomes a `SyncUser` carrying the
record's id as providerId, the email, the composed display name, and no
avatar. -/
def normalizeSpec : List KUser → List SyncUser
  | [] => []
  | u :: t =>
      match u.email with
      | none => normalizeSpec t
      | some e =>
          if e = "" then normalizeSpec t
          else ⟨u.id, e, displayNameSpec u, none⟩ :: normalizeSpec t

theorem buildUserName_eq_displayNameSpec (u : KUser) :
    buildUserName u = displayNameSpec u := by
  unfold buildUserName displayNameSpec
  cases hu : u.email with
  | none => simp [optTruthy]
  | some e => by_cases he : e = "" <;> simp [optTruthy, he]

/-- C8, amended: the normalizer maps raw records to `SyncUser` exactly as the
spec describes — including the display-name composition order — except that
records lacking an email are dropped silently, with no error entry. -/
theorem c8_normalizer_amended (ks : List KUser) :
    normalizeKeycloakUsers ks = normalizeSpec ks := by
  induction ks with
  | nil => rfl
  | cons u t ih =>
      unfold normalizeKeycloakUsers normalizeSpec
      unfold normalizeKeycloakUsers at ih
      cases hu : u.email with
      | none =>
          rw [List.filter_cons_of_neg (by simp [optTruthy, hu])]
          exact ih
      | some e =>
          by_cases he : e = ""
          · rw [List.filter_cons_of_neg (by simp [optTruthy, hu, he])]
            dsimp only
            rw [if_pos he]
            exact ih
          · rw [List.filter_cons_of_pos (by simp [optTruthy, hu, he]),
              List.map_cons, ih]
            dsimp only
            rw [if_neg he, buildUserName_eq_displayNameSpec, hu]
            rfl

/-! ## The pagination loop (C9) -/

/-- A fixed raw user used to build full pages. -/
def kU0 : KUser := ⟨"k", "k", none, none, none, true⟩

/-- An oracle that always returns a full page of 100 users. -/
def fullFetch : Nat → List KUser := fun _ => List.replicate 100 kU0

theorem getAllUsersGo_full (m : Nat) :
    ∀ first acc, first + 100 * m = 100000 →
      (getAllUsersGo fullFetch 100 first acc).length = acc.length + 100 * (m + 1) := by
  induction m with
  | zero =>
      intro first acc h
      rw [getAllUsersGo.eq_def]
      have hfirst : first = 100000 := by omega
      simp [fullFetch, hfirst]
  | succ m ih =>
      intro first acc h
      rw [getAllUsersGo.eq_def]
      have h1 : ¬ ((fullFetch first).length < 100) := by simp [fullFetch]
      have h2 : ¬ (100000 < first + 100) := by omega
      rw [if_neg h1, if_neg h2, dif_pos (by omega)]
      rw [ih (first + 100) _ (by omega)]
      simp [fullFetch]
      ring

/-- C9, counterexample: with the default batch size 100 and an identity
provider holding at least 100 100 enabled users (every page full), the loop
fetches 100 100 users — the claimed hard bound of 100 000 is exceeded. -/
theorem c9_counterexample_fetches_beyond_bound :
    (getAllUsers fullFetch 100).length = 100100 ∧
    ¬ ((getAllUsers fullFetch 100).length ≤ 100000) := by
  have h := getAllUsersGo_full 1000 0 [] (by norm_num)
  unfold getAllUsers
  constructor
  · rw [h]; rfl
  · rw [h]; omega

theorem getAllUsersGo_le (fetch : Nat → List KUser) (b : Nat) (hb : 0 < b)
    (hp : ∀ n, (fetch n).length ≤ b) :
    ∀ k first acc, 100001 - first = k → first ≤ 100000 →
      (getAllUsersGo fetch b first acc).length ≤
        acc.length + (100000 - first) + b := by
  intro k
  induction k using Nat.strong_induction_on with
  | _ k ih =>
      intro first acc hk hfirst
      rw [getAllUsersGo.eq_def]
      by_cases hshort : (fetch first).length < b
      · rw [if_pos hshort]
        have := hp first
        simp only [List.length_append]
        omega
      · rw [if_neg hshort]
        by_cases hstop : 100000 < first + b
        · rw [if_pos hstop]
          have := hp first
          simp only [List.length_append]
          omega
        · rw [if_neg hstop, dif_pos hb]
          have hrec := ih (100001 - (first + b)) (by omega) (first + b)
            (acc ++ fetch first) rfl (by omega)
          have hlen : (acc ++ fetch first).length = acc.length + (fetch first).length :=
            List.length_append acc (fetch first)
          have hfull : (fetch first).length = b := le_antisymm (hp first) (by omega)
          omega

/-- C9, amended: `getAllUsers` requests pages at offsets 0, batchSize,
2·batchSize, …, terminates as soon as a short page is returned (returning
exactly that page when the very first one is short), and the hard stop fires
at the first offset exceeding 100 000 — so, for any page oracle that respects
the requested page size, the total number of users fetched is at most
100 000 + batchSize (the loop appends one more full page after reaching
offset 100 000 before stopping, so 100 000 itself is not a bound). -/
theorem c9_pagination_amended (fetch : Nat → List KUser) (b : Nat) (hb : 0 < b)
    (hp : ∀ n, (fetch n).length ≤ b) :
    (getAllUsers fetch b).length ≤ 100000 + b ∧
    ((fetch 0).length < b → getAllUsers fetch b = fetch 0) := by
  constructor
  · have := getAllUsersGo_le fetch b hb hp 100001 0 [] rfl (by omega)
    unfold getAllUsers
    simpa using this
  · intro hshort
    unfold getAllUsers
    rw [getAllUsersGo.eq_def, if_pos hshort]
    simp

/-- An oracle with no users at all. -/
def emptyFetch : Nat → List KUser := fun _ => []

/-- C9 witness: the amended bound applied to the empty oracle with the
default batch size. -/
theorem c9_pagination_amended_witness :
    (0 < 100 ∧ ∀ n, (emptyFetch n).length ≤ 100) ∧
    (getAllUsers emptyFetch 100).length ≤ 100000 + 100 :=
  ⟨⟨by decide, fun n => by simp [emptyFetch]⟩,
   (c9_pagination_amended emptyFetch 100 (by decide)
      (fun n => by simp [emptyFetch])).1⟩

/-! ## Email-class invariant (C3 amended) -/

theorem find?_append_of_some {α : Type} {l l' : List α} {p : α → Bool} {x : α}
    (h : l.find? p = some x) : (l ++ l').find? p = some x := by
  induction l with
  | nil => cases h
  | cons a t ih =>
      by_cases hpa : p a = true
      · rw [List.find?_cons_of_pos _ hpa] at h
        rw [List.cons_append, List.find?_cons_of_pos _ hpa]
        exact h
      · rw [List.find?_cons_of_neg _ (by simpa using hpa)] at h
        rw [List.cons_append, List.find?_cons_of_neg _ (by simpa using hpa)]
        exact ih h

/-- The user `uid` still has its original email `em` (and team `tid`), and
every row outside `ids0` lies in a different case-insensitive email class
than `em`; row ids are unique and below the id generator. -/
def emailClassInv (uid : Nat) (em : String) (tid : Nat) (ids0 : List Nat)
    (db : DB) : Prop :=
  (∃ row, getUser db uid = some row ∧ row.email = em ∧ row.teamId = tid) ∧
  (∀ w ∈ db.users, w.id ∈ ids0 ∨ lower w.email ≠ lower em) ∧
  ((db.users.map (fun w => w.id)).Nodup) ∧
  (∀ w ∈ db.users, w.id < db.nextUserId)

theorem computeUpdates_email_none {w : UserRec} {s : SyncUser}
    (h : lower w.email = lower s.email) :
    (computeUpdates w s).email = none := by
  simp [computeUpdates, h]

theorem emailClassInv_mono_users {uid : Nat} {em : String} {tid : Nat}
    {ids0 : List Nat} {db db' : DB} (h : emailClassInv uid em tid ids0 db)
    (hus : db'.users = db.users) (hnx : db'.nextUserId = db.nextUserId) :
    emailClassInv uid em tid ids0 db' := by
  obtain ⟨⟨row, hrow, h1, h2⟩, hclass, hnd, hlt⟩ := h
  refine ⟨⟨row, ?_, h1, h2⟩, ?_, ?_, ?_⟩
  · unfold getUser at hrow ⊢
    rw [hus]
    exact hrow
  · rw [hus]
    exact hclass
  · rw [hus]
    exact hnd
  · rw [hus, hnx]
    exact hlt

theorem emailClassInv_writeUser {uid : Nat} {em : String} {tid : Nat}
    {ids0 : List Nat} {db : DB} (tgt : Nat) (f : UserRec → UserRec)
    (hfid : ∀ v, (f v).id = v.id) (hfem : ∀ v, (f v).email = v.email)
    (hfteam : ∀ v, (f v).teamId = v.teamId)
    (h : emailClassInv uid em tid ids0 db) :
    emailClassInv uid em tid ids0 (writeUser db tgt f) := by
  obtain ⟨⟨row, hrow, h1, h2⟩, hclass, hnd, hlt⟩ := h
  refine ⟨?_, ?_, ?_, ?_⟩
  · by_cases huw : uid = tgt
    · subst huw
      refine ⟨f row, ?_, by rw [hfem]; exact h1, by rw [hfteam]; exact h2⟩
      rw [getUser_writeUser_self f hfid, hrow]
      rfl
    · exact ⟨row, by rw [getUser_writeUser_of_ne f hfid huw]; exact hrow, h1, h2⟩
  · intro w' hw'
    simp only [writeUser, List.mem_map] at hw'
    obtain ⟨v, hv, hveq⟩ := hw'
    rcases hclass v hv with hin | hne
    · left
      subst hveq
      by_cases hvid : v.id = tgt
      · rw [if_pos hvid, hfid]
        exact hin
      · rw [if_neg hvid]
        exact hin
    · right
      subst hveq
      by_cases hvid : v.id = tgt
      · rw [if_pos hvid, hfem]
        exact hne
      · rw [if_neg hvid]
        exact hne
  · rw [writeUser_ids tgt f hfid]
    exact hnd
  · intro w' hw'
    simp only [writeUser, List.mem_map] at hw'
    obtain ⟨v, hv, hveq⟩ := hw'
    have hid : w'.id = v.id := by
      subst hveq
      by_cases hvid : v.id = tgt <;> simp [hvid, hfid]
    rw [show (writeUser db tgt f).nextUserId = db.nextUserId from rfl, hid]
    exact hlt v hv

theorem emailClassInv_append {uid : Nat} {em : String} {tid : Nat}
    {ids0 : List Nat} {db db' : DB} (newU : UserRec)
    (hus : db'.users = db.users ++ [newU])
    (hnx : ∀ w ∈ db.users, w.id < db'.nextUserId)
    (hnx2 : newU.id < db'.nextUserId)
    (hfresh : newU.id ∉ db.users.map (fun w => w.id))
    (hci : lower newU.email ≠ lower em)
    (h : emailClassInv uid em tid ids0 db) :
    emailClassInv uid em tid ids0 db' := by
  obtain ⟨⟨row, hrow, h1, h2⟩, hclass, hnd, hlt⟩ := h
  refine ⟨⟨row, ?_, h1, h2⟩, ?_, ?_, ?_⟩
  · unfold getUser at hrow ⊢
    rw [hus]
    exact find?_append_of_some hrow
  · intro w' hw'
    rw [hus, List.mem_append] at hw'
    rcases hw' with hold | hnew
    · exact hclass w' hold
    · right
      rw [List.mem_singleton] at hnew
      subst hnew
      exact hci
  · rw [hus, List.map_append, List.nodup_append]
    exact ⟨hnd, List.nodup_singleton _, by simpa using fun hmem => hfresh hmem⟩
  · intro w' hw'
    rw [hus, List.mem_append] at hw'
    rcases hw' with hold | hnew
    · exact hnx w' hold
    · rw [List.mem_singleton] at hnew
      subst hnew
      exact hnx2

/-- A Phase-2 step preserves the email-class invariant: the link path never
changes an email (the patch is guarded by case-insensitive equality with the
found user), and the create path is guarded by the absence of any
case-insensitive match in the team — the `uid` row blocks creates in `em`'s
class. -/
theorem phase2Step_emailClassInv (tid apId : Nat) (team : TeamRec)
    (dg : Option GroupRec) (processed : List String) (db : DB)
    (rep : SyncReport) (s : SyncUser) (uid : Nat) (em : String)
    (ids0 : List Nat) (h : emailClassInv uid em tid ids0 db) :
    emailClassInv uid em tid ids0
      (phase2Step tid apId team dg processed (db, rep) s).1 := by
  unfold phase2Step
  split_ifs
  · exact h
  · exact h
  · cases hf : findUserByEmailCI db tid s.email with
    | some w =>
        simp only [hf]
        by_cases hae : authExists db apId s.providerId = true
        · rw [if_pos hae]
          exact h
        · rw [if_neg hae]
          obtain ⟨hwmem, hwteam, hwci⟩ := findUserByEmailCI_some hf
          have hpe : (computeUpdates w s).email = none := computeUpdates_email_none hwci
          have h1 : emailClassInv uid em tid ids0
              { db with auths := db.auths ++ [⟨s.providerId, apId, w.id, []⟩] } :=
            emailClassInv_mono_users h rfl rfl
          have h2 : emailClassInv uid em tid ids0
              (if hasUpdates (computeUpdates w s) = true then
                writeUser { db with auths := db.auths ++ [⟨s.providerId, apId, w.id, []⟩] }
                  w.id (fun v => applyPatch v (computeUpdates w s))
              else { db with auths := db.auths ++ [⟨s.providerId, apId, w.id, []⟩] }) := by
            split_ifs
            · exact emailClassInv_writeUser w.id _ (fun v => rfl)
                (fun v => by simp [applyPatch, hpe]) (fun v => rfl) h1
            · exact h1
          by_cases hsu : w.suspendedAt ≠ none
          · rw [if_pos hsu]
            exact emailClassInv_writeUser w.id _ (fun v => rfl) (fun v => rfl)
              (fun v => rfl) h2
          · rw [if_neg hsu]
            split_ifs with hup
            · rw [if_pos hup] at h2
              exact h2
            · rw [if_neg hup] at h2
              exact h2
    | none =>
        simp only [hf]
        by_cases hae : authExists db apId s.providerId = true
        · rw [if_pos hae]
          exact h
        · rw [if_neg hae]
          obtain ⟨⟨row, hrow, hrowem, hrowteam⟩, hclass, hnd, hlt⟩ := h
          have hrmem : row ∈ db.users := (getUser_some hrow).1
          have hmiss := findUserByEmailCI_eq_none.mp hf row hrmem
          have hci : lower s.email ≠ lower em := by
            intro hx
            exact hmiss ⟨hrowteam, by rw [hrowem, hx]⟩
          have happ : ∀ (db' : DB),
              db'.users = db.users ++
                [{ id := db.nextUserId, teamId := tid, email := s.email,
                   name := s.name, avatarUrl := truthyOrNull s.avatarUrl,
                   role := team.defaultUserRole.getD "member",
                   suspendedAt := none, suspendedById := none,
                   lastActiveAt := none }] →
              db'.nextUserId = db.nextUserId + 1 →
              emailClassInv uid em tid ids0 db' := by
            intro db' hus hnx
            refine emailClassInv_append _ hus ?_ ?_ ?_ ?_
              ⟨⟨row, hrow, hrowem, hrowteam⟩, hclass, hnd, hlt⟩
            · intro v hv
              rw [hnx]
              exact Nat.lt_succ_of_lt (hlt v hv)
            · rw [hnx]
              exact Nat.lt_succ_self _
            · intro hmem
              rw [List.mem_map] at hmem
              obtain ⟨v, hv, hveq⟩ := hmem
              exact absurd (hveq ▸ hlt v hv) (Nat.lt_irrefl _)
            · exact hci
          cases dg with
          | some g => exact happ _ rfl rfl
          | none => exact happ _ rfl rfl

theorem emailClassInv_writeUser_mem {uid : Nat} {em : String} {tid : Nat}
    {ids0 : List Nat} {db : DB} (tgt : Nat) (f : UserRec → UserRec)
    (hfid : ∀ v, (f v).id = v.id) (hfteam : ∀ v, (f v).teamId = v.teamId)
    (htgt : tgt ∈ ids0)
    (hfem : tgt = uid → ∀ v, (f v).email = v.email)
    (h : emailClassInv uid em tid ids0 db) :
    emailClassInv uid em tid ids0 (writeUser db tgt f) := by
  obtain ⟨⟨row, hrow, h1, h2⟩, hclass, hnd, hlt⟩ := h
  refine ⟨?_, ?_, ?_, ?_⟩
  · by_cases huw : uid = tgt
    · subst huw
      refine ⟨f row, ?_, by rw [hfem rfl]; exact h1, by rw [hfteam]; exact h2⟩
      rw [getUser_writeUser_self f hfid, hrow]
      rfl
    · exact ⟨row, by rw [getUser_writeUser_of_ne f hfid huw]; exact hrow, h1, h2⟩
  · intro w' hw'
    simp only [writeUser, List.mem_map] at hw'
    obtain ⟨v, hv, hveq⟩ := hw'
    subst hveq
    by_cases hvid : v.id = tgt
    · left
      rw [if_pos hvid, hfid, hvid]
      exact htgt
    · rw [if_neg hvid]
      exact hclass v hv
  · rw [writeUser_ids tgt f hfid]
    exact hnd
  · intro w' hw'
    simp only [writeUser, List.mem_map] at hw'
    obtain ⟨v, hv, hveq⟩ := hw'
    have hid : w'.id = v.id := by
      subst hveq
      by_cases hvid : v.id = tgt <;> simp [hvid, hfid]
    rw [show (writeUser db tgt f).nextUserId = db.nextUserId from rfl, hid]
    exact hlt v hv

/-- A Phase-1 step preserves the email-class invariant provided the pair's
user is a pre-existing row and, when it is the tracked user, the snapshot
entry matched against it does not change its email. -/
theorem phase1Step_emailClassInv (S : List SyncUser) (now : Nat) (db : DB)
    (rep : SyncReport) (pr : AuthRec × UserRec) {uid : Nat} {em : String}
    {tid : Nat} {ids0 : List Nat}
    (htgt : pr.2.id ∈ ids0)
    (hpatch : pr.2.id = uid → ∀ p, lookupLast S pr.1.providerId = some p →
      (computeUpdates pr.2 p).email = none)
    (h : emailClassInv uid em tid ids0 db) :
    emailClassInv uid em tid ids0 (phase1Step S now (db, rep) pr).1 := by
  obtain ⟨a, u⟩ := pr
  unfold phase1Step
  cases hl : lookupLast S a.providerId with
  | some p =>
      simp only [hl]
      have hem : u.id = uid →
          ∀ v, (applyPatch v (computeUpdates u p)).email = v.email := by
        intro hid v
        simp [applyPatch, hpatch hid p hl]
      have h1 : emailClassInv uid em tid ids0
          (if hasUpdates (computeUpdates u p) = true then
            writeUser db u.id (fun v => applyPatch v (computeUpdates u p))
          else db) := by
        split_ifs
        · exact emailClassInv_writeUser_mem u.id _ (fun v => rfl) (fun v => rfl)
            htgt hem h
        · exact h
      by_cases hsu : u.suspendedAt ≠ none
      · rw [if_pos hsu]
        exact emailClassInv_writeUser_mem u.id _ (fun v => rfl) (fun v => rfl)
          htgt (fun _ v => rfl) h1
      · rw [if_neg hsu]
        split_ifs with hup
        · rw [if_pos hup] at h1
          exact h1
        · rw [if_neg hup] at h1
          exact h1
  | none =>
      simp only [hl]
      split_ifs with hsu
      · exact emailClassInv_writeUser_mem u.id _ (fun v => rfl) (fun v => rfl)
          htgt (fun _ v => rfl) h
      · exact h

theorem phase1_fold_emailClassInv (S : List SyncUser) (now : Nat)
    (ps : List (AuthRec × UserRec)) (st : DB × SyncReport) {uid : Nat}
    {em : String} {tid : Nat} {ids0 : List Nat}
    (hps : ∀ pr ∈ ps, pr.2.id ∈ ids0 ∧
      (pr.2.id = uid → ∀ p, lookupLast S pr.1.providerId = some p →
        (computeUpdates pr.2 p).email = none))
    (h : emailClassInv uid em tid ids0 st.1) :
    emailClassInv uid em tid ids0 ((ps.foldl (phase1Step S now) st)).1 := by
  induction ps generalizing st with
  | nil => exact h
  | cons q t ih =>
      simp only [List.foldl_cons]
      obtain ⟨h1, h2⟩ := hps q (List.mem_cons_self q t)
      exact ih (phase1Step S now st q)
        (fun pr hpr => hps pr (List.mem_cons_of_mem q hpr))
        (phase1Step_emailClassInv S now st.1 st.2 q h1 h2 h)

theorem phase2_fold_emailClassInv (tid apId : Nat) (team : TeamRec)
    (dg : Option GroupRec) (processed : List String) (es : List SyncUser)
    (st : DB × SyncReport) {uid : Nat} {em : String} {ids0 : List Nat}
    (h : emailClassInv uid em tid ids0 st.1) :
    emailClassInv uid em tid ids0
      ((es.foldl (phase2Step tid apId team dg processed) st)).1 := by
  induction es generalizing st with
  | nil => exact h
  | cons e t ih =>
      simp only [List.foldl_cons]
      apply ih
      exact phase2Step_emailClassInv tid apId team dg processed st.1 st.2 e
        uid em ids0 h

/-- C3, amended: for a local user with email `e` and a snapshot entry with
email `e'` equal after lowering, reconciliation creates no duplicate user
(every row not present before lies outside `e'`'s case-insensitive class) and
the stored email remains `e` — the email is only replaced on a
case-insensitive change, which cannot occur here, so it never adopts the
snapshot casing.  The hypotheses ask that ids be unique and below the id
generator, and that snapshot entries matched against this user's existing
authentications agree with its email class (otherwise an earlier rename could
move the user out of the class before the entry is processed). -/
theorem c3_case_insensitive_match_amended (db0 : DB) (now tid apId : Nat)
    (S : List SyncUser) (gid : Option Nat) (gname : Option String)
    (u : UserRec) (e' : SyncUser)
    (hnd : (db0.users.map (fun w => w.id)).Nodup)
    (hlt : ∀ w ∈ db0.users, w.id < db0.nextUserId)
    (hu : u ∈ db0.users) (hteam : u.teamId = tid)
    (_he' : e' ∈ S) (hci : lower u.email = lower e'.email)
    (hP1 : ∀ pr ∈ joinedPairs db0 tid apId, pr.2.id = u.id →
      ∀ p, lookupLast S pr.1.providerId = some p →
        lower p.email = lower u.email) :
    (∃ row, getUser (reconcile db0 now tid apId S gid gname).2 u.id = some row ∧
      row.email = u.email) ∧
    (∀ w ∈ (reconcile db0 now tid apId S gid gname).2.users,
      w.id ∉ db0.users.map (fun w' => w'.id) →
        lower w.email ≠ lower e'.email) := by
  have hinv0 : emailClassInv u.id u.email tid (db0.users.map (fun w => w.id)) db0 :=
    ⟨⟨u, getUser_eq_of_mem hnd hu, rfl, hteam⟩,
     fun w hw => Or.inl (List.mem_map_of_mem _ hw), hnd, hlt⟩
  have hinv1 : emailClassInv u.id u.email tid (db0.users.map (fun w => w.id))
      (reconcile db0 now tid apId S gid gname).2 := by
    unfold reconcile
    by_cases hlen : S.length = 0
    · rw [if_pos hlen]
      exact hinv0
    · rw [if_neg hlen]
      cases db0.teams.find? (fun t => decide (t.id = tid)) with
      | none => exact hinv0
      | some team =>
          cases db0.authProviders.find? (fun a => decide (a.id = apId)) with
          | none => exact hinv0
          | some ap =>
              apply phase2_fold_emailClassInv
              apply phase1_fold_emailClassInv
              · intro pr hpr
                have hjoin := (mem_joinedPairs.mp hpr).2.2
                have hmem := (getUserInTeam_some hjoin).1
                refine ⟨List.mem_map_of_mem _ hmem, ?_⟩
                intro hid p hp
                have hga := getUser_eq_of_mem hnd hmem
                rw [hid] at hga
                have hgu := getUser_eq_of_mem hnd hu
                rw [hga] at hgu
                have hpr2 : pr.2 = u := Option.some_inj.mp hgu
                apply computeUpdates_email_none
                rw [hpr2]
                exact (hP1 pr hpr hid p hp).symm
              · exact hinv0
  obtain ⟨⟨row, hrow, hrem, _⟩, hclass, _, _⟩ := hinv1
  refine ⟨⟨row, hrow, hrem⟩, ?_⟩
  intro w hw hnotin
  rcases hclass w hw with hin | hne
  · exact absurd hin hnotin
  · rw [← hci]
    exact hne

/-- C3 witness: a concrete invited user (no authentications) and a snapshot
entry differing only in email case — the stored email is unchanged. -/
theorem c3_case_insensitive_match_amended_witness :
    lower "invited@x" = lower "INVITED@X" ∧
    (∃ row, getUser (reconcile dbInvited 0 1 1
        [⟨"gX", "INVITED@X", "N", none⟩] none none).2 1 = some row ∧
      row.email = "invited@x") := by
  refine ⟨by decide, ?_⟩
  exact (c3_case_insensitive_match_amended dbInvited 0 1 1
    [⟨"gX", "INVITED@X", "N", none⟩] none none
    ⟨1, 1, "invited@x", "N", none, "member", none, none, none⟩
    ⟨"gX", "INVITED@X", "N", none⟩
    (by decide) (by decide) (by decide) rfl (by decide) (by decide)
    (fun pr hpr => by
      rw [show joinedPairs dbInvited 1 1 = [] from rfl] at hpr
      cases hpr)).1

/-! ## Idempotence (C2 amended): synced pairs and covered entries -/

/-- A (auth, loaded user) pair is synced with the snapshot: a matched pair has
no attribute diff against its map entry and is unsuspended; an orphan pair is
already suspended. -/
def SyncedPair (S : List SyncUser) (pr : AuthRec × UserRec) : Prop :=
  match lookupLast S pr.1.providerId with
  | some p => hasUpdates (computeUpdates pr.2 p) = false ∧ pr.2.suspendedAt = none
  | none => pr.2.suspendedAt ≠ none

/-- A snapshot entry is covered by the store: either Phase 1 will process its
providerId, or a conflicting authentication row makes Phase 2 error out
without mutating anything. -/
def Covered (db : DB) (tid apId : Nat) (s : SyncUser) : Prop :=
  s.providerId ∈ processedIds db tid apId ∨ authExists db apId s.providerId = true

/-- The row Phase 2's link path leaves for the found user. -/
def linkRowResult (w : UserRec) (s : SyncUser) : UserRec :=
  let w1 := applyPatch w (computeUpdates w s)
  if w.suspendedAt ≠ none then
    { w1 with suspendedAt := none, suspendedById := none }
  else w1

theorem computeUpdates_clear (u : UserRec) (p : SyncUser) :
    computeUpdates { u with suspendedAt := none, suspendedById := none } p =
      computeUpdates u p := rfl

theorem linkRowResult_noDiff (w : UserRec) (s : SyncUser) :
    hasUpdates (computeUpdates (linkRowResult w s) s) = false := by
  unfold linkRowResult
  split_ifs
  · rw [computeUpdates_clear]
    exact hasUpdates_computeUpdates_applyPatch w s
  · exact hasUpdates_computeUpdates_applyPatch w s

theorem linkRowResult_susp (w : UserRec) (s : SyncUser) :
    (linkRowResult w s).suspendedAt = none := by
  unfold linkRowResult
  split_ifs with h
  · rfl
  · rw [show (applyPatch w (computeUpdates w s)).suspendedAt = w.suspendedAt from rfl]
    simpa using h

theorem linkRowResult_email_ci {w : UserRec} {s : SyncUser}
    (h : lower w.email = lower s.email) :
    lower (linkRowResult w s).email = lower s.email := by
  have he : (linkRowResult w s).email = w.email := by
    unfold linkRowResult
    split_ifs <;>
      simp [applyPatch, computeUpdates_email_none h]
  rw [he, h]

theorem linkRowResult_id (w : UserRec) (s : SyncUser) :
    (linkRowResult w s).id = w.id := by
  unfold linkRowResult
  split_ifs <;> rfl

theorem linkRowResult_teamId (w : UserRec) (s : SyncUser) :
    (linkRowResult w s).teamId = w.teamId := by
  unfold linkRowResult
  split_ifs <;> rfl

theorem phase1RowResult_id (S : List SyncUser) (now : Nat)
    (pr : AuthRec × UserRec) : (phase1RowResult S now pr).id = pr.2.id := by
  cases hl : lookupLast S pr.1.providerId <;>
    simp only [phase1RowResult, hl] <;> split_ifs <;> rfl

theorem phase1RowResult_teamId (S : List SyncUser) (now : Nat)
    (pr : AuthRec × UserRec) : (phase1RowResult S now pr).teamId = pr.2.teamId := by
  cases hl : lookupLast S pr.1.providerId <;>
    simp only [phase1RowResult, hl] <;> split_ifs <;> rfl

theorem phase1RowResult_synced_match {S : List SyncUser} {now : Nat}
    {pr : AuthRec × UserRec} {p : SyncUser}
    (hl : lookupLast S pr.1.providerId = some p) :
    hasUpdates (computeUpdates (phase1RowResult S now pr) p) = false ∧
    (phase1RowResult S now pr).suspendedAt = none := by
  simp only [phase1RowResult, hl]
  split_ifs with h
  · exact ⟨by rw [computeUpdates_clear]; exact hasUpdates_computeUpdates_applyPatch _ _,
      rfl⟩
  · refine ⟨hasUpdates_computeUpdates_applyPatch _ _, ?_⟩
    rw [show (applyPatch pr.2 (computeUpdates pr.2 p)).suspendedAt = pr.2.suspendedAt
      from rfl]
    simpa using h

theorem phase1RowResult_orphan_susp {S : List SyncUser} {now : Nat}
    {pr : AuthRec × UserRec} (hl : lookupLast S pr.1.providerId = none) :
    (phase1RowResult S now pr).suspendedAt ≠ none := by
  simp only [phase1RowResult, hl]
  split_ifs with h
  · simp
  · simpa using h

theorem phase1RowResult_orphan_email {S : List SyncUser} {now : Nat}
    {pr : AuthRec × UserRec} (hl : lookupLast S pr.1.providerId = none) :
    (phase1RowResult S now pr).email = pr.2.email := by
  simp only [phase1RowResult, hl]
  split_ifs <;> rfl

theorem phase1RowResult_match_email {S : List SyncUser} {now : Nat}
    {pr : AuthRec × UserRec} {p : SyncUser}
    (hl : lookupLast S pr.1.providerId = some p) (hp : p.email ≠ "") :
    lower (phase1RowResult S now pr).email = lower p.email := by
  simp only [phase1RowResult, hl]
  split_ifs with h
  · rw [show ({ applyPatch pr.2 (computeUpdates pr.2 p) with
        suspendedAt := none, suspendedById := none } : UserRec).email =
        (applyPatch pr.2 (computeUpdates pr.2 p)).email from rfl]
    exact lower_applyPatch_email hp
  · exact lower_applyPatch_email hp

theorem nodup_map_inj {α β : Type} {f : α → β} {l : List α} {x y : α}
    (h : (l.map f).Nodup) (hx : x ∈ l) (hy : y ∈ l) (hf : f x = f y) : x = y :=
  List.inj_on_of_nodup_map h hx hy hf

theorem nodup_map_append_ne {α β : Type} {f : α → β} {l1 l2 : List α} {x : α}
    (h : ((l1 ++ x :: l2).map f).Nodup) : ∀ y ∈ l1, f y ≠ f x := by
  intro y hy hfe
  rw [List.map_append, List.nodup_append] at h
  have hx : f y ∈ List.map f (x :: l2) := by
    rw [hfe]
    exact List.mem_map_of_mem f (List.mem_cons_self x l2)
  exact h.2.2 (List.mem_map_of_mem f hy) hx

theorem mem_id_unique {db : DB} {v w : UserRec}
    (hnd : (db.users.map (fun x => x.id)).Nodup)
    (hv : v ∈ db.users) (hw : w ∈ db.users) (h : v.id = w.id) : v = w :=
  nodup_map_inj hnd hv hw h

/-! ## The second run on a synced store (C2 amended, part 1) -/

theorem phase1Step_synced (S : List SyncUser) (now : Nat) (db : DB)
    (rep : SyncReport) (pr : AuthRec × UserRec) (h : SyncedPair S pr) :
    phase1Step S now (db, rep) pr =
      (db, { rep with unchanged := rep.unchanged + 1 }) := by
  unfold phase1Step
  cases hl : lookupLast S pr.1.providerId with
  | some p =>
      simp only [SyncedPair, hl] at h
      simp only [hl]
      rw [if_neg (by simp [h.2]), if_neg (by simp [h.1]), if_neg (by simp [h.1])]
  | none =>
      simp only [SyncedPair, hl] at h
      simp only [hl]
      rw [if_neg h]

theorem phase1_fold_synced (S : List SyncUser) (now : Nat)
    (ps : List (AuthRec × UserRec)) (db : DB) (rep : SyncReport)
    (h : ∀ pr ∈ ps, SyncedPair S pr) :
    ps.foldl (phase1Step S now) (db, rep) =
      (db, { rep with unchanged := rep.unchanged + ps.length }) := by
  induction ps generalizing rep with
  | nil => simp
  | cons q t ih =>
      simp only [List.foldl_cons]
      rw [phase1Step_synced S now db rep q (h q (List.mem_cons_self q t)),
        ih _ (fun pr hpr => h pr (List.mem_cons_of_mem q hpr))]
      show (db, ({ rep with unchanged := rep.unchanged + 1 + t.length } : SyncReport)) = _
      have harith : rep.unchanged + 1 + t.length = rep.unchanged + (q :: t).length := by
        simp only [List.length_cons]
        omega
      rw [harith]

theorem phase2Step_covered (tid apId : Nat) (team : TeamRec)
    (dg : Option GroupRec) (db : DB) (rep : SyncReport) (s : SyncUser)
    (hcov : Covered db tid apId s) (hne : s.email ≠ "") :
    (phase2Step tid apId team dg (processedIds db tid apId) (db, rep) s).1 = db ∧
    (phase2Step tid apId team dg (processedIds db tid apId) (db, rep) s).2.created =
      rep.created ∧
    (phase2Step tid apId team dg (processedIds db tid apId) (db, rep) s).2.updated =
      rep.updated ∧
    (phase2Step tid apId team dg (processedIds db tid apId) (db, rep) s).2.suspended =
      rep.suspended ∧
    (phase2Step tid apId team dg (processedIds db tid apId) (db, rep) s).2.reactivated =
      rep.reactivated ∧
    (phase2Step tid apId team dg (processedIds db tid apId) (db, rep) s).2.unchanged =
      rep.unchanged ∧
    (phase2Step tid apId team dg (processedIds db tid apId) (db, rep) s).2.addedToGroup =
      rep.addedToGroup := by
  by_cases hmem : s.providerId ∈ processedIds db tid apId
  · unfold phase2Step
    rw [if_pos hmem]
    exact ⟨rfl, rfl, rfl, rfl, rfl, rfl, rfl⟩
  · have hae : authExists db apId s.providerId = true := by
      rcases hcov with hm | ha
      · exact absurd hm hmem
      · exact ha
    unfold phase2Step
    rw [if_neg hmem, if_neg hne]
    cases hf : findUserByEmailCI db tid s.email <;> simp only [hf] <;>
      rw [if_pos hae] <;> exact ⟨rfl, rfl, rfl, rfl, rfl, rfl, rfl⟩

theorem phase2_fold_covered (tid apId : Nat) (team : TeamRec)
    (dg : Option GroupRec) (db : DB) (es : List SyncUser) (rep : SyncReport)
    (hes : ∀ s ∈ es, Covered db tid apId s ∧ s.email ≠ "") :
    ((es.foldl (phase2Step tid apId team dg (processedIds db tid apId))
        (db, rep)).1 = db) ∧
    ((es.foldl (phase2Step tid apId team dg (processedIds db tid apId))
        (db, rep)).2.created = rep.created) ∧
    ((es.foldl (phase2Step tid apId team dg (processedIds db tid apId))
        (db, rep)).2.updated = rep.updated) ∧
    ((es.foldl (phase2Step tid apId team dg (processedIds db tid apId))
        (db, rep)).2.suspended = rep.suspended) ∧
    ((es.foldl (phase2Step tid apId team dg (processedIds db tid apId))
        (db, rep)).2.reactivated = rep.reactivated) ∧
    ((es.foldl (phase2Step tid apId team dg (processedIds db tid apId))
        (db, rep)).2.unchanged = rep.unchanged) := by
  induction es generalizing rep with
  | nil => exact ⟨rfl, rfl, rfl, rfl, rfl, rfl⟩
  | cons s t ih =>
      simp only [List.foldl_cons]
      obtain ⟨hc, hn⟩ := hes s (List.mem_cons_self s t)
      obtain ⟨h1, h2, h3, h4, h5, h6, _⟩ :=
        phase2Step_covered tid apId team dg db rep s hc hn
      have hst : phase2Step tid apId team dg (processedIds db tid apId) (db, rep) s =
          (db, (phase2Step tid apId team dg (processedIds db tid apId) (db, rep) s).2) :=
        Prod.ext h1 rfl
      rw [hst]
      obtain ⟨g1, g2, g3, g4, g5, g6⟩ :=
        ih ((phase2Step tid apId team dg (processedIds db tid apId) (db, rep) s).2)
          (fun x hx => hes x (List.mem_cons_of_mem s hx))
      exact ⟨g1, g2.trans h2, g3.trans h3, g4.trans h4, g5.trans h5, g6.trans h6⟩

theorem run2_report (db1 : DB) (now tid apId : Nat) (S : List SyncUser)
    (gid : Option Nat) (gname : Option String)
    (hlen : ¬ S.length = 0)
    (hteam : ∃ team, db1.teams.find? (fun t => decide (t.id = tid)) = some team)
    (hap : ∃ ap, db1.authProviders.find? (fun a => decide (a.id = apId)) = some ap)
    (hsync : ∀ pr ∈ joinedPairs db1 tid apId, SyncedPair S pr)
    (hcov : ∀ s ∈ S, Covered db1 tid apId s)
    (hne : ∀ s ∈ S, s.email ≠ "") :
    (reconcile db1 now tid apId S gid gname).1.created = 0 ∧
    (reconcile db1 now tid apId S gid gname).1.updated = 0 ∧
    (reconcile db1 now tid apId S gid gname).1.suspended = 0 ∧
    (reconcile db1 now tid apId S gid gname).1.reactivated = 0 ∧
    (reconcile db1 now tid apId S gid gname).1.unchanged =
      (joinedPairs db1 tid apId).length ∧
    (reconcile db1 now tid apId S gid gname).2 = db1 := by
  obtain ⟨team, hteamq⟩ := hteam
  obtain ⟨ap, hapq⟩ := hap
  unfold reconcile
  rw [if_neg hlen, hteamq, hapq]
  dsimp only
  rw [phase1_fold_synced S now (joinedPairs db1 tid apId) db1 SyncReport.empty hsync]
  obtain ⟨g1, g2, g3, g4, g5, g6⟩ :=
    phase2_fold_covered tid apId team (resolveDefaultGroup db1 tid gid gname) db1 S
      ({ SyncReport.empty with
          unchanged := SyncReport.empty.unchanged + (joinedPairs db1 tid apId).length })
      (fun s hs => ⟨hcov s hs, hne s hs⟩)
  exact ⟨g2, g3, g4, g5, g6.trans (Nat.zero_add _), g1⟩

/-! ## Phase-1 row tracking (C2 amended, part 2) -/

theorem phase1Step_getUser_same (S : List SyncUser) (now : Nat) (db : DB)
    (rep : SyncReport) (pr : AuthRec × UserRec)
    (hrow : getUser db pr.2.id = some pr.2) :
    getUser (phase1Step S now (db, rep) pr).1 pr.2.id =
      some (phase1RowResult S now pr) := by
  obtain ⟨a, u⟩ := pr
  cases hl : lookupLast S a.providerId with
  | some p =>
      by_cases hu : hasUpdates (computeUpdates u p) = true <;>
        by_cases hs : u.suspendedAt = none
      · have hstep : (phase1Step S now (db, rep) (a, u)).1 =
            writeUser db u.id (fun w => applyPatch w (computeUpdates u p)) := by
          simp only [phase1Step, hl]
          rw [if_pos hu, if_neg (by simp [hs])]
        have hres : phase1RowResult S now (a, u) = applyPatch u (computeUpdates u p) := by
          simp only [phase1RowResult, hl]
          rw [if_neg (by simp [hs])]
        rw [hstep, hres,
          getUser_writeUser_self (fun w => applyPatch w (computeUpdates u p)) (fun w => rfl),
          hrow]
        rfl
      · have hstep : (phase1Step S now (db, rep) (a, u)).1 =
            clearSusp (writeUser db u.id (fun w => applyPatch w (computeUpdates u p))) u.id := by
          simp only [phase1Step, hl]
          rw [if_pos hu, if_pos (by simpa using hs)]
        have hres : phase1RowResult S now (a, u) =
            { applyPatch u (computeUpdates u p) with
                suspendedAt := none, suspendedById := none } := by
          simp only [phase1RowResult, hl]
          rw [if_pos (by simpa using hs)]
        rw [hstep, hres, getUser_clearSusp_self,
          getUser_writeUser_self (fun w => applyPatch w (computeUpdates u p)) (fun w => rfl),
          hrow]
        rfl
      · have hstep : (phase1Step S now (db, rep) (a, u)).1 = db := by
          simp only [phase1Step, hl]
          rw [if_neg (by simp [hs]), if_neg (by simp [hu])]
        have hres : phase1RowResult S now (a, u) = u := by
          simp only [phase1RowResult, hl]
          rw [if_neg (by simp [hs]), applyPatch_of_not_hasUpdates (by simpa using hu)]
        rw [hstep, hres]
        exact hrow
      · have hstep : (phase1Step S now (db, rep) (a, u)).1 = clearSusp db u.id := by
          simp only [phase1Step, hl]
          rw [if_pos (by simpa using hs), if_neg (by simp [hu])]
        have hres : phase1RowResult S now (a, u) =
            { u with suspendedAt := none, suspendedById := none } := by
          simp only [phase1RowResult, hl]
          rw [if_pos (by simpa using hs), applyPatch_of_not_hasUpdates (by simpa using hu)]
        rw [hstep, hres, getUser_clearSusp_self, hrow]
        rfl
  | none =>
      by_cases hs : u.suspendedAt = none
      · have hstep : (phase1Step S now (db, rep) (a, u)).1 = setSusp db u.id now := by
          simp only [phase1Step, hl]
          rw [if_pos hs]
        have hres : phase1RowResult S now (a, u) = { u with suspendedAt := some now } := by
          simp only [phase1RowResult, hl]
          rw [if_pos hs]
        rw [hstep, hres, getUser_setSusp_self, hrow]
        rfl
      · have hstep : (phase1Step S now (db, rep) (a, u)).1 = db := by
          simp only [phase1Step, hl]
          rw [if_neg hs]
        have hres : phase1RowResult S now (a, u) = u := by
          simp only [phase1RowResult, hl]
          rw [if_neg hs]
        rw [hstep, hres]
        exact hrow

theorem phase1Step_getUser_other (S : List SyncUser) (now : Nat) (db : DB)
    (rep : SyncReport) (pr : AuthRec × UserRec) (v : Nat) (hv : v ≠ pr.2.id) :
    getUser (phase1Step S now (db, rep) pr).1 v = getUser db v := by
  obtain ⟨a, u⟩ := pr
  unfold phase1Step
  cases hl : lookupLast S a.providerId with
  | some p =>
      simp only [hl]
      split_ifs
      · rw [getUser_clearSusp_of_ne hv,
          getUser_writeUser_of_ne (fun w => applyPatch w (computeUpdates u p))
            (fun w => rfl) hv]
      · rw [getUser_clearSusp_of_ne hv]
      · rw [getUser_writeUser_of_ne (fun w => applyPatch w (computeUpdates u p))
          (fun w => rfl) hv]
      · rfl
  | none =>
      simp only [hl]
      split_ifs
      · rw [getUser_setSusp_of_ne hv]
      · rfl

theorem phase1Step_users_ids (S : List SyncUser) (now : Nat) (db : DB)
    (rep : SyncReport) (pr : AuthRec × UserRec) :
    (phase1Step S now (db, rep) pr).1.users.map (fun w => w.id) =
      db.users.map (fun w => w.id) := by
  obtain ⟨a, u⟩ := pr
  unfold phase1Step
  cases hl : lookupLast S a.providerId with
  | some p =>
      simp only [hl]
      split_ifs
      · rw [show clearSusp (writeUser db u.id (fun w => applyPatch w (computeUpdates u p))) u.id =
            writeUser (writeUser db u.id (fun w => applyPatch w (computeUpdates u p))) u.id
              clearFields from rfl,
          writeUser_ids u.id clearFields (fun w => rfl),
          writeUser_ids u.id (fun w => applyPatch w (computeUpdates u p)) (fun w => rfl)]
      · rw [show clearSusp db u.id = writeUser db u.id clearFields from rfl,
          writeUser_ids u.id clearFields (fun w => rfl)]
      · rw [writeUser_ids u.id (fun w => applyPatch w (computeUpdates u p)) (fun w => rfl)]
      · rfl
  | none =>
      simp only [hl]
      split_ifs
      · rw [show setSusp db u.id now = writeUser db u.id (suspendFields now) from rfl,
          writeUser_ids u.id (suspendFields now) (fun w => rfl)]
      · rfl

theorem phase1_fold_rows (S : List SyncUser) (now : Nat)
    (ps : List (AuthRec × UserRec)) (db : DB) (rep : SyncReport)
    (hnd : (ps.map (fun pr => pr.2.id)).Nodup)
    (hcopies : ∀ pr ∈ ps, getUser db pr.2.id = some pr.2) :
    (∀ pr ∈ ps, getUser ((ps.foldl (phase1Step S now) (db, rep))).1 pr.2.id =
      some (phase1RowResult S now pr)) ∧
    (∀ v, v ∉ ps.map (fun pr => pr.2.id) →
      getUser ((ps.foldl (phase1Step S now) (db, rep))).1 v = getUser db v) := by
  induction ps generalizing db rep with
  | nil => exact ⟨fun pr hpr => absurd hpr (List.not_mem_nil pr), fun v _ => rfl⟩
  | cons q t ih =>
      simp only [List.map_cons, List.nodup_cons] at hnd
      simp only [List.foldl_cons]
      have hq := hcopies q (List.mem_cons_self q t)
      have hcop' : ∀ pr ∈ t,
          getUser (phase1Step S now (db, rep) q).1 pr.2.id = some pr.2 := by
        intro pr hpr
        have hne : pr.2.id ≠ q.2.id := by
          intro he
          exact hnd.1 (he ▸ List.mem_map_of_mem (fun x => x.2.id) hpr)
        rw [phase1Step_getUser_other S now db rep q pr.2.id hne]
        exact hcopies pr (List.mem_cons_of_mem q hpr)
      obtain ⟨ih1, ih2⟩ := ih (phase1Step S now (db, rep) q).1
        (phase1Step S now (db, rep) q).2 hnd.2 hcop'
      constructor
      · intro pr hpr
        rcases List.mem_cons.mp hpr with rfl | hmem
        · rw [ih2 pr.2.id hnd.1]
          exact phase1Step_getUser_same S now db rep pr hq
        · exact ih1 pr hmem
      · intro v hv
        simp only [List.map_cons, List.mem_cons] at hv
        push_neg at hv
        rw [ih2 v hv.2]
        exact phase1Step_getUser_other S now db rep q v hv.1

/-! ## The run-1 invariant (C2 amended, part 3) -/

theorem idlt_transfer {db db' : DB}
    (hids : db'.users.map (fun w => w.id) = db.users.map (fun w => w.id))
    (hnx : db'.nextUserId = db.nextUserId)
    (h : ∀ w ∈ db.users, w.id < db.nextUserId) :
    ∀ w' ∈ db'.users, w'.id < db'.nextUserId := by
  intro w' hw'
  have hm : w'.id ∈ db'.users.map (fun w => w.id) := List.mem_map_of_mem _ hw'
  rw [hids] at hm
  obtain ⟨w, hw, he⟩ := List.mem_map.mp hm
  rw [hnx, ← he]
  exact h w hw

theorem phase1_fold_users_ids (S : List SyncUser) (now : Nat)
    (ps : List (AuthRec × UserRec)) (db : DB) (rep : SyncReport) :
    ((ps.foldl (phase1Step S now) (db, rep))).1.users.map (fun w => w.id) =
      db.users.map (fun w => w.id) := by
  induction ps generalizing db rep with
  | nil => rfl
  | cons q t ih =>
      simp only [List.foldl_cons]
      exact (ih (phase1Step S now (db, rep) q).1 (phase1Step S now (db, rep) q).2).trans
        (phase1Step_users_ids S now db rep q)

/-- The preconditions of the amended idempotence claim. -/
structure C2Pre (db0 : DB) (tid apId : Nat) (S : List SyncUser) : Prop where
  nonempty : S ≠ []
  teamSome : ∃ team, db0.teams.find? (fun t => decide (t.id = tid)) = some team
  apSome : ∃ ap, db0.authProviders.find? (fun a => decide (a.id = apId)) = some ap
  nodup : (db0.users.map (fun w => w.id)).Nodup
  idlt : ∀ w ∈ db0.users, w.id < db0.nextUserId
  fklt : ∀ a ∈ db0.auths, a.userId < db0.nextUserId
  pidsN : (S.map (fun s => s.providerId)).Nodup
  emailsN : (S.map (fun s => lower s.email)).Nodup
  emailsNE : ∀ s ∈ S, s.email ≠ ""
  pairsUserN : ((joinedPairs db0 tid apId).map (fun pr => pr.2.id)).Nodup
  orphanEmails : ∀ pr ∈ joinedPairs db0 tid apId,
    lookupLast S pr.1.providerId = none → ∀ s ∈ S, lower pr.2.email ≠ lower s.email

/-- A Phase-1 pair's row in the current store. -/
def RowR1 (db0 : DB) (tid apId : Nat) (S : List SyncUser) (now : Nat)
    (w : UserRec) : Prop :=
  ∃ pr ∈ joinedPairs db0 tid apId, w.id = pr.2.id ∧ w = phase1RowResult S now pr

/-- An untouched original row. -/
def RowOrig (db0 : DB) (tid apId : Nat) (w : UserRec) : Prop :=
  getUser db0 w.id = some w ∧
  w.id ∉ (joinedPairs db0 tid apId).map (fun pr => pr.2.id)

/-- A row linked or created by an already-handled Phase-2 entry. -/
def RowSyncedTo (db0 : DB) (tid apId : Nat) (done : List SyncUser)
    (w : UserRec) : Prop :=
  ∃ s' ∈ done, s'.providerId ∉ processedIds db0 tid apId ∧
    lower w.email = lower s'.email ∧
    hasUpdates (computeUpdates w s') = false ∧
    w.suspendedAt = none ∧
    w.id ∉ (joinedPairs db0 tid apId).map (fun pr => pr.2.id) ∧
    ((getUserInTeam db0 tid w.id).isSome ∨ db0.nextUserId ≤ w.id)

/-- What is known about an authentication row created during Phase 2. -/
def NewAuthFact (db0 : DB) (tid apId : Nat) (done : List SyncUser) (db : DB)
    (na : AuthRec) : Prop :=
  na.authenticationProviderId = apId ∧
  ∃ s' ∈ done, na.providerId = s'.providerId ∧
    s'.providerId ∉ processedIds db0 tid apId ∧
    ∃ w ∈ db.users, w.id = na.userId ∧ w.teamId = tid ∧
      hasUpdates (computeUpdates w s') = false ∧ w.suspendedAt = none ∧
      lower w.email = lower s'.email

/-- The Phase-2 loop invariant of the first run: after handling the prefix
`done` of the snapshot, every row is a Phase-1 result, an untouched original,
or synced to a handled entry; the authentications are the original ones plus
well-formed new links; and every handled entry is processed or guarded by an
existing authentication row. -/
structure Inv2 (db0 : DB) (tid apId : Nat) (S : List SyncUser) (now : Nat)
    (done : List SyncUser) (db : DB) : Prop where
  teams : db.teams = db0.teams
  aps : db.authProviders = db0.authProviders
  nodup : (db.users.map (fun w => w.id)).Nodup
  idlt : ∀ w ∈ db.users, w.id < db.nextUserId
  next0 : db0.nextUserId ≤ db.nextUserId
  rows : ∀ w ∈ db.users, RowR1 db0 tid apId S now w ∨ RowOrig db0 tid apId w ∨
    RowSyncedTo db0 tid apId done w
  pairsRows : ∀ pr ∈ joinedPairs db0 tid apId,
    getUser db pr.2.id = some (phase1RowResult S now pr)
  auths : ∃ newAuths, db.auths = db0.auths ++ newAuths ∧
    ∀ na ∈ newAuths, NewAuthFact db0 tid apId done db na
  cover : ∀ s' ∈ done, s'.providerId ∈ processedIds db0 tid apId ∨
    ∃ a ∈ db.auths, a.authenticationProviderId = apId ∧ a.providerId = s'.providerId

theorem inv2_init (db0 : DB) (tid apId : Nat) (S : List SyncUser) (now : Nat)
    (rep : SyncReport) (pre : C2Pre db0 tid apId S) :
    Inv2 db0 tid apId S now []
      (((joinedPairs db0 tid apId).foldl (phase1Step S now) (db0, rep))).1 := by
  have hcop : ∀ pr ∈ joinedPairs db0 tid apId, getUser db0 pr.2.id = some pr.2 := by
    intro pr hpr
    exact getUser_eq_of_mem pre.nodup
      (getUserInTeam_some (mem_joinedPairs.mp hpr).2.2).1
  obtain ⟨f1, f2⟩ := phase1_fold_rows S now (joinedPairs db0 tid apId) db0 rep
    pre.pairsUserN hcop
  have hids := phase1_fold_users_ids S now (joinedPairs db0 tid apId) db0 rep
  have hstruct := phase1_fold_structure S now (joinedPairs db0 tid apId) (db0, rep)
  have hnd1 : ((((joinedPairs db0 tid apId).foldl (phase1Step S now)
      (db0, rep))).1.users.map (fun w => w.id)).Nodup := by
    rw [hids]
    exact pre.nodup
  refine ⟨hstruct.1, hstruct.2.1, hnd1,
    idlt_transfer hids hstruct.2.2.2.2.2.1 pre.idlt,
    le_of_eq hstruct.2.2.2.2.2.1.symm, ?_, f1,
    ⟨[], by rw [hstruct.2.2.2.1, List.append_nil],
      fun na hna => absurd hna (List.not_mem_nil na)⟩,
    fun s' hs' => absurd hs' (List.not_mem_nil s')⟩
  intro w hw
  have hg : getUser (((joinedPairs db0 tid apId).foldl (phase1Step S now)
      (db0, rep))).1 w.id = some w := getUser_eq_of_mem hnd1 hw
  by_cases hin : w.id ∈ (joinedPairs db0 tid apId).map (fun pr => pr.2.id)
  · left
    obtain ⟨pr, hpr, hpreq⟩ := List.mem_map.mp hin
    refine ⟨pr, hpr, hpreq.symm, ?_⟩
    have hf := f1 pr hpr
    rw [hpreq, hg] at hf
    exact Option.some_inj.mp hf
  · right
    left
    refine ⟨?_, hin⟩
    rw [f2 w.id hin] at hg
    exact hg

/-! ## Phase-2 invariant step: supporting lemmas (C2 amended, part 4) -/

theorem rowSyncedTo_mono {db0 : DB} {tid apId : Nat} {done done' : List SyncUser}
    {w : UserRec} (hsub : ∀ x ∈ done, x ∈ done')
    (h : RowSyncedTo db0 tid apId done w) : RowSyncedTo db0 tid apId done' w := by
  obtain ⟨s', hs', rest⟩ := h
  exact ⟨s', hsub s' hs', rest⟩

theorem newAuthFact_mono {db0 : DB} {tid apId : Nat} {done done' : List SyncUser}
    {db : DB} {na : AuthRec} (hsub : ∀ x ∈ done, x ∈ done')
    (h : NewAuthFact db0 tid apId done db na) :
    NewAuthFact db0 tid apId done' db na := by
  obtain ⟨h1, s', hs', rest⟩ := h
  exact ⟨h1, s', hsub s' hs', rest⟩

theorem inv2_snoc_skip {db0 : DB} {tid apId : Nat} {S : List SyncUser} {now : Nat}
    {done : List SyncUser} {db : DB} {s : SyncUser}
    (hinv : Inv2 db0 tid apId S now done db)
    (hcov : s.providerId ∈ processedIds db0 tid apId ∨
      ∃ a ∈ db.auths, a.authenticationProviderId = apId ∧ a.providerId = s.providerId) :
    Inv2 db0 tid apId S now (done ++ [s]) db := by
  obtain ⟨newAuths, hA, hF⟩ := hinv.auths
  refine ⟨hinv.teams, hinv.aps, hinv.nodup, hinv.idlt, hinv.next0, ?_, hinv.pairsRows,
    ⟨newAuths, hA, fun na hna =>
      newAuthFact_mono (fun x hx => List.mem_append_left _ hx) (hF na hna)⟩, ?_⟩
  · intro w hw
    rcases hinv.rows w hw with h1 | h2 | h3
    · exact Or.inl h1
    · exact Or.inr (Or.inl h2)
    · exact Or.inr (Or.inr
        (rowSyncedTo_mono (fun x hx => List.mem_append_left _ hx) h3))
  · intro x hx
    rcases List.mem_append.mp hx with hxd | hxs
    · rcases hinv.cover x hxd with h1 | h2
      · exact Or.inl h1
      · exact Or.inr h2
    · rw [List.mem_singleton] at hxs
      subst hxs
      exact hcov

theorem inv2_authExists {db0 : DB} {tid apId : Nat} {S : List SyncUser} {now : Nat}
    {done : List SyncUser} {db : DB} {s : SyncUser}
    (hinv : Inv2 db0 tid apId S now done db)
    (hdone_ne : ∀ x ∈ done, x.providerId ≠ s.providerId) :
    authExists db apId s.providerId = authExists db0 apId s.providerId := by
  obtain ⟨newAuths, hA, hF⟩ := hinv.auths
  cases hq : authExists db0 apId s.providerId with
  | false =>
      apply authExists_eq_false.mpr
      intro a ha hc
      rw [hA, List.mem_append] at ha
      rcases ha with h0 | hn
      · exact authExists_eq_false.mp hq a h0 hc
      · obtain ⟨_, s', hs', hpid, _, _⟩ := hF a hn
        exact hdone_ne s' hs' (hpid ▸ hc.2)
  | true =>
      apply authExists_eq_true.mpr
      obtain ⟨a, ha, hc⟩ := authExists_eq_true.mp hq
      exact ⟨a, by rw [hA]; exact List.mem_append_left _ ha, hc⟩

theorem inv2_found_orig {db0 : DB} {tid apId : Nat} {S : List SyncUser} {now : Nat}
    {done rest : List SyncUser} {db : DB} {s : SyncUser} {w : UserRec}
    (pre : C2Pre db0 tid apId S) (hS : S = done ++ s :: rest)
    (hinv : Inv2 db0 tid apId S now done db)
    (hproc : s.providerId ∉ processedIds db0 tid apId)
    (hf : findUserByEmailCI db tid s.email = some w) :
    RowOrig db0 tid apId w ∧ w ∈ db.users ∧ w.teamId = tid ∧
      lower w.email = lower s.email := by
  obtain ⟨hwmem, hwteam, hwci⟩ := findUserByEmailCI_some hf
  have hsS : s ∈ S := by
    rw [hS]
    exact List.mem_append.mpr (Or.inr (List.mem_cons_self s rest))
  rcases hinv.rows w hwmem with hr1 | horig | hsync
  · exfalso
    obtain ⟨pr, hpr, hid, hwe⟩ := hr1
    cases hl : lookupLast S pr.1.providerId with
    | some p =>
        have hpS := lookupLast_some hl
        have hpne : p.email ≠ "" := pre.emailsNE p hpS.1
        have hle : lower w.email = lower p.email := by
          rw [hwe]
          exact phase1RowResult_match_email hl hpne
        have hsp : s = p := nodup_map_inj pre.emailsN hsS hpS.1 (by rw [← hwci, hle])
        apply hproc
        rw [hsp, hpS.2]
        exact mem_processedIds hpr
    | none =>
        apply pre.orphanEmails pr hpr hl s hsS
        rw [← phase1RowResult_orphan_email hl, ← hwe]
        exact hwci
  · exact ⟨horig, hwmem, hwteam, hwci⟩
  · exfalso
    obtain ⟨s', hs'done, _, hci', _⟩ := hsync
    have hN := pre.emailsN
    rw [hS] at hN
    exact nodup_map_append_ne hN s' hs'done (by rw [← hci', hwci])

/-! ## Phase-2 invariant step: the link path (C2 amended, part 5) -/

theorem mem_link_self {db : DB} {w : UserRec} {s : SyncUser}
    (hwmem : w ∈ db.users) :
    linkRowResult w s ∈
      db.users.map (fun v => if v.id = w.id then linkRowResult w s else v) :=
  List.mem_map.mpr ⟨w, hwmem, by rw [if_pos rfl]⟩

theorem link_ids (db : DB) (w : UserRec) (s : SyncUser) :
    (db.users.map (fun v => if v.id = w.id then linkRowResult w s else v)).map
      (fun x => x.id) = db.users.map (fun x => x.id) := by
  rw [List.map_map]
  apply List.map_congr_left
  intro v _
  by_cases hv : v.id = w.id
  · simp only [Function.comp, if_pos hv, linkRowResult_id]
    exact hv.symm
  · simp only [Function.comp, if_neg hv]

theorem getUser_link_of_ne {db : DB} {w : UserRec} {s : SyncUser} {v : Nat}
    (hne : ¬ v = w.id) :
    ((db.users.map (fun x => if x.id = w.id then linkRowResult w s else x)).find?
      (fun x => decide (x.id = v))) = getUser db v := by
  unfold getUser
  induction db.users with
  | nil => rfl
  | cons a t ih =>
      simp only [List.map_cons]
      by_cases ha : a.id = w.id
      · have h1 : (decide ((linkRowResult w s).id = v)) = false := by
          rw [decide_eq_false_iff_not, linkRowResult_id]
          exact fun hc => hne hc.symm
        have h2 : (decide (a.id = v)) = false := by
          rw [decide_eq_false_iff_not, ha]
          exact fun hc => hne hc.symm
        rw [if_pos ha, List.find?_cons_of_neg _ (by rw [h1]; exact Bool.false_ne_true),
          List.find?_cons_of_neg _ (by rw [h2]; exact Bool.false_ne_true)]
        exact ih
      · rw [if_neg ha]
        cases hd : decide (a.id = v) with
        | false =>
            rw [List.find?_cons_of_neg _ (by rw [hd]; exact Bool.false_ne_true),
              List.find?_cons_of_neg _ (by rw [hd]; exact Bool.false_ne_true)]
            exact ih
        | true =>
            rw [@List.find?_cons_of_pos UserRec (fun x => decide (x.id = v)) a
                (List.map (fun x => if x.id = w.id then linkRowResult w s else x) t) hd,
              @List.find?_cons_of_pos UserRec (fun x => decide (x.id = v)) a t hd]

theorem inv2_link_core {db0 : DB} {tid apId : Nat} {S : List SyncUser} {now : Nat}
    {done rest : List SyncUser} {s : SyncUser} {db db' : DB} {w : UserRec}
    (pre : C2Pre db0 tid apId S) (hS : S = done ++ s :: rest)
    (hinv : Inv2 db0 tid apId S now done db)
    (hproc : s.providerId ∉ processedIds db0 tid apId)
    (horig : RowOrig db0 tid apId w) (hwmem : w ∈ db.users) (hwteam : w.teamId = tid)
    (hwci : lower w.email = lower s.email)
    (husers : db'.users =
      db.users.map (fun v => if v.id = w.id then linkRowResult w s else v))
    (hauths : db'.auths = db.auths ++ [⟨s.providerId, apId, w.id, []⟩])
    (hteams : db'.teams = db.teams) (haps : db'.authProviders = db.authProviders)
    (hnext : db'.nextUserId = db.nextUserId) :
    Inv2 db0 tid apId S now (done ++ [s]) db' := by
  have hids : db'.users.map (fun x => x.id) = db.users.map (fun x => x.id) := by
    rw [husers]
    exact link_ids db w s
  have hsdone : s ∈ done ++ [s] :=
    List.mem_append.mpr (Or.inr (List.mem_singleton.mpr rfl))
  have hemN := pre.emailsN
  rw [hS] at hemN
  obtain ⟨newAuths, hA, hF⟩ := hinv.auths
  refine ⟨hteams.trans hinv.teams, haps.trans hinv.aps, ?_, ?_, ?_, ?_, ?_, ?_, ?_⟩
  · rw [hids]
    exact hinv.nodup
  · exact idlt_transfer hids hnext hinv.idlt
  · rw [hnext]
    exact hinv.next0
  · intro x hx
    rw [husers] at hx
    obtain ⟨v, hv, hveq⟩ := List.mem_map.mp hx
    by_cases hvid : v.id = w.id
    · rw [if_pos hvid] at hveq
      right
      right
      rw [← hveq]
      refine ⟨s, hsdone, hproc, linkRowResult_email_ci hwci, linkRowResult_noDiff w s,
        linkRowResult_susp w s, ?_, ?_⟩
      · rw [linkRowResult_id]
        exact horig.2
      · left
        rw [linkRowResult_id,
          (getUserInTeam_eq_some_iff pre.nodup).mpr ⟨horig.1, hwteam⟩]
        rfl
    · rw [if_neg hvid] at hveq
      rw [← hveq]
      rcases hinv.rows v hv with h1 | h2 | h3
      · exact Or.inl h1
      · exact Or.inr (Or.inl h2)
      · exact Or.inr (Or.inr
          (rowSyncedTo_mono (fun y hy => List.mem_append_left _ hy) h3))
  · intro pr hpr
    have hne : ¬ pr.2.id = w.id := by
      intro hceq
      exact horig.2 (hceq ▸ List.mem_map_of_mem (fun q => q.2.id) hpr)
    have hgu : getUser db' pr.2.id = getUser db pr.2.id := by
      unfold getUser
      rw [husers]
      exact getUser_link_of_ne hne
    rw [hgu]
    exact hinv.pairsRows pr hpr
  · refine ⟨newAuths ++ [⟨s.providerId, apId, w.id, []⟩], ?_, ?_⟩
    · rw [hauths, hA, List.append_assoc]
    · intro na hna
      rcases List.mem_append.mp hna with hold | hnew
      · obtain ⟨h1, s', hs', hpid, hproc', v, hvmem, hvid, hvteam, hvnd, hvsusp, hvci⟩ :=
          hF na hold
        have hvnw : ¬ v.id = w.id := by
          intro haa
          have hvw : v = w := mem_id_unique hinv.nodup hvmem hwmem haa
          exact nodup_map_append_ne hemN s' hs' (by rw [← hvci, hvw, hwci])
        refine ⟨h1, s', List.mem_append_left _ hs', hpid, hproc', v, ?_, hvid, hvteam,
          hvnd, hvsusp, hvci⟩
        rw [husers]
        exact List.mem_map.mpr ⟨v, hvmem, by rw [if_neg hvnw]⟩
      · rw [List.mem_singleton] at hnew
        subst hnew
        refine ⟨rfl, s, hsdone, rfl, hproc, linkRowResult w s, ?_, linkRowResult_id w s,
          (linkRowResult_teamId w s).trans hwteam, linkRowResult_noDiff w s,
          linkRowResult_susp w s, linkRowResult_email_ci hwci⟩
        rw [husers]
        exact mem_link_self hwmem
  · intro x hx
    rcases List.mem_append.mp hx with hxd | hxs
    · rcases hinv.cover x hxd with h1 | h2
      · exact Or.inl h1
      · obtain ⟨a, ha, hac⟩ := h2
        exact Or.inr ⟨a, by rw [hauths]; exact List.mem_append_left _ ha, hac⟩
    · rw [List.mem_singleton] at hxs
      subst hxs
      refine Or.inr ⟨⟨x.providerId, apId, w.id, []⟩, ?_, rfl, rfl⟩
      rw [hauths]
      exact List.mem_append_right _ (List.mem_singleton.mpr rfl)

/-! ## Phase-2 invariant step: the create path (C2 amended, part 6) -/

theorem inv2_create_core {db0 : DB} {tid apId : Nat} {S : List SyncUser} {now : Nat}
    {done rest : List SyncUser} {s : SyncUser} {db db' : DB} {role : String}
    (pre : C2Pre db0 tid apId S) (hS : S = done ++ s :: rest)
    (hinv : Inv2 db0 tid apId S now done db)
    (hproc : s.providerId ∉ processedIds db0 tid apId)
    (husers : db'.users = db.users ++
      [{ id := db.nextUserId, teamId := tid, email := s.email, name := s.name,
         avatarUrl := truthyOrNull s.avatarUrl, role := role,
         suspendedAt := none, suspendedById := none, lastActiveAt := none }])
    (hauths : db'.auths = db.auths ++ [⟨s.providerId, apId, db.nextUserId, []⟩])
    (hteams : db'.teams = db.teams) (haps : db'.authProviders = db.authProviders)
    (hnext : db'.nextUserId = db.nextUserId + 1) :
    Inv2 db0 tid apId S now (done ++ [s]) db' := by
  have hsdone : s ∈ done ++ [s] :=
    List.mem_append.mpr (Or.inr (List.mem_singleton.mpr rfl))
  have hfresh : db.nextUserId ∉ (joinedPairs db0 tid apId).map (fun pr => pr.2.id) := by
    intro hmem
    obtain ⟨pr, hpr, hid⟩ := List.mem_map.mp hmem
    have hm0 : pr.2 ∈ db0.users := (getUserInTeam_some (mem_joinedPairs.mp hpr).2.2).1
    have h1 := pre.idlt pr.2 hm0
    have h2 := hinv.next0
    have hid' : pr.2.id = db.nextUserId := hid
    omega
  obtain ⟨newAuths, hA, hF⟩ := hinv.auths
  refine ⟨hteams.trans hinv.teams, haps.trans hinv.aps, ?_, ?_, ?_, ?_, ?_, ?_, ?_⟩
  · rw [husers, List.map_append]
    refine List.Nodup.append hinv.nodup (List.nodup_singleton _) ?_
    intro y hy hy2
    rw [List.map_singleton, List.mem_singleton] at hy2
    obtain ⟨v, hv, hvid⟩ := List.mem_map.mp hy
    have h1 := hinv.idlt v hv
    have hvid' : v.id = y := hvid
    have hy2' : y = db.nextUserId := hy2
    omega
  · intro x hx
    rw [husers, List.mem_append] at hx
    rw [hnext]
    rcases hx with hmem | hnewm
    · exact Nat.lt_succ_of_lt (hinv.idlt x hmem)
    · rw [List.mem_singleton] at hnewm
      rw [hnewm]
      exact Nat.lt_succ_self _
  · rw [hnext]
    exact Nat.le_succ_of_le hinv.next0
  · intro x hx
    rw [husers, List.mem_append] at hx
    rcases hx with hmem | hnewm
    · rcases hinv.rows x hmem with h1 | h2 | h3
      · exact Or.inl h1
      · exact Or.inr (Or.inl h2)
      · exact Or.inr (Or.inr
          (rowSyncedTo_mono (fun y hy => List.mem_append_left _ hy) h3))
    · rw [List.mem_singleton] at hnewm
      rw [hnewm]
      right
      right
      exact ⟨s, hsdone, hproc, rfl, hasUpdates_newUser db.nextUserId tid s role, rfl,
        hfresh, Or.inr hinv.next0⟩
  · intro pr hpr
    unfold getUser
    rw [husers]
    exact find?_append_of_some (hinv.pairsRows pr hpr)
  · refine ⟨newAuths ++ [⟨s.providerId, apId, db.nextUserId, []⟩], ?_, ?_⟩
    · rw [hauths, hA, List.append_assoc]
    · intro na hna
      rcases List.mem_append.mp hna with hold | hnew
      · obtain ⟨h1, s', hs', hpid, hproc', v, hvmem, hvid, hvteam, hvnd, hvsusp, hvci⟩ :=
          hF na hold
        refine ⟨h1, s', List.mem_append_left _ hs', hpid, hproc', v, ?_, hvid, hvteam,
          hvnd, hvsusp, hvci⟩
        rw [husers]
        exact List.mem_append_left _ hvmem
      · rw [List.mem_singleton] at hnew
        subst hnew
        refine ⟨rfl, s, hsdone, rfl, hproc,
          { id := db.nextUserId, teamId := tid, email := s.email, name := s.name,
            avatarUrl := truthyOrNull s.avatarUrl, role := role,
            suspendedAt := none, suspendedById := none, lastActiveAt := none }, ?_,
          rfl, rfl, hasUpdates_newUser db.nextUserId tid s role, rfl, rfl⟩
        rw [husers]
        exact List.mem_append_right _ (List.mem_singleton.mpr rfl)
  · intro x hx
    rcases List.mem_append.mp hx with hxd | hxs
    · rcases hinv.cover x hxd with h1 | h2
      · exact Or.inl h1
      · obtain ⟨a, ha, hac⟩ := h2
        exact Or.inr ⟨a, by rw [hauths]; exact List.mem_append_left _ ha, hac⟩
    · rw [List.mem_singleton] at hxs
      subst hxs
      refine Or.inr ⟨⟨x.providerId, apId, db.nextUserId, []⟩, ?_, rfl, rfl⟩
      rw [hauths]
      exact List.mem_append_right _ (List.mem_singleton.mpr rfl)

/-! ## Phase-2 invariant step: assembling the four link outcomes (C2, part 7) -/

theorem link_users_eq_patch {db : DB} {w : UserRec} {s : SyncUser}
    (hnd : (db.users.map (fun x => x.id)).Nodup) (hwmem : w ∈ db.users)
    (hsu : w.suspendedAt = none) :
    db.users.map
        (fun v => if v.id = w.id then applyPatch v (computeUpdates w s) else v) =
      db.users.map (fun v => if v.id = w.id then linkRowResult w s else v) := by
  apply List.map_congr_left
  intro v hv
  by_cases hvid : v.id = w.id
  · have hvw : v = w := mem_id_unique hnd hv hwmem hvid
    rw [if_pos hvid, if_pos hvid, hvw]
    simp only [linkRowResult]
    rw [if_neg (fun hc => hc hsu)]
  · rw [if_neg hvid, if_neg hvid]

theorem link_users_eq_patch_clear {db : DB} {w : UserRec} {s : SyncUser}
    (hnd : (db.users.map (fun x => x.id)).Nodup) (hwmem : w ∈ db.users)
    (hsu : ¬ w.suspendedAt = none) :
    (db.users.map
        (fun v => if v.id = w.id then applyPatch v (computeUpdates w s) else v)).map
        (fun v => if v.id = w.id then
          { v with suspendedAt := none, suspendedById := none } else v) =
      db.users.map (fun v => if v.id = w.id then linkRowResult w s else v) := by
  rw [List.map_map]
  apply List.map_congr_left
  intro v hv
  by_cases hvid : v.id = w.id
  · have hvw : v = w := mem_id_unique hnd hv hwmem hvid
    simp only [Function.comp]
    rw [if_pos hvid, if_pos hvid, hvw,
      if_pos (applyPatch_id w (computeUpdates w s)), ]
    simp only [linkRowResult]
    rw [if_pos hsu]
  · simp only [Function.comp]
    rw [if_neg hvid, if_neg hvid, if_neg hvid]

theorem link_users_eq_clear {db : DB} {w : UserRec} {s : SyncUser}
    (hnd : (db.users.map (fun x => x.id)).Nodup) (hwmem : w ∈ db.users)
    (hup : ¬ hasUpdates (computeUpdates w s) = true)
    (hsu : ¬ w.suspendedAt = none) :
    db.users.map (fun v => if v.id = w.id then
        { v with suspendedAt := none, suspendedById := none } else v) =
      db.users.map (fun v => if v.id = w.id then linkRowResult w s else v) := by
  apply List.map_congr_left
  intro v hv
  by_cases hvid : v.id = w.id
  · have hvw : v = w := mem_id_unique hnd hv hwmem hvid
    rw [if_pos hvid, if_pos hvid, hvw]
    simp only [linkRowResult]
    rw [applyPatch_of_not_hasUpdates (Bool.eq_false_iff.mpr hup), if_pos hsu]
  · rw [if_neg hvid, if_neg hvid]

theorem link_users_eq_id {db : DB} {w : UserRec} {s : SyncUser}
    (hnd : (db.users.map (fun x => x.id)).Nodup) (hwmem : w ∈ db.users)
    (hup : ¬ hasUpdates (computeUpdates w s) = true)
    (hsu : w.suspendedAt = none) :
    db.users = db.users.map (fun v => if v.id = w.id then linkRowResult w s else v) := by
  conv_lhs => rw [← List.map_id db.users]
  apply List.map_congr_left
  intro v hv
  by_cases hvid : v.id = w.id
  · have hvw : v = w := mem_id_unique hnd hv hwmem hvid
    rw [if_pos hvid, hvw]
    simp only [linkRowResult]
    rw [applyPatch_of_not_hasUpdates (Bool.eq_false_iff.mpr hup),
      if_neg (fun hc => hc hsu)]
    rfl
  · rw [if_neg hvid]
    rfl

theorem phase2Step_inv2 {db0 : DB} {tid apId : Nat} {S : List SyncUser} {now : Nat}
    {team : TeamRec} {dg : Option GroupRec}
    {done rest : List SyncUser} {s : SyncUser} {db : DB} {rep : SyncReport}
    (pre : C2Pre db0 tid apId S) (hS : S = done ++ s :: rest)
    (hinv : Inv2 db0 tid apId S now done db) :
    Inv2 db0 tid apId S now (done ++ [s])
      (phase2Step tid apId team dg (processedIds db0 tid apId) (db, rep) s).1 := by
  by_cases hproc : s.providerId ∈ processedIds db0 tid apId
  · unfold phase2Step
    rw [if_pos hproc]
    exact inv2_snoc_skip hinv (Or.inl hproc)
  · have hsne : s.email ≠ "" := pre.emailsNE s
      (by rw [hS]; exact List.mem_append.mpr (Or.inr (List.mem_cons_self s rest)))
    unfold phase2Step
    rw [if_neg hproc, if_neg hsne]
    cases hf : findUserByEmailCI db tid s.email with
    | some w =>
        simp only [hf]
        obtain ⟨horig, hwmem, hwteam, hwci⟩ := inv2_found_orig pre hS hinv hproc hf
        by_cases hex : authExists db apId s.providerId = true
        · rw [if_pos hex]
          exact inv2_snoc_skip hinv (Or.inr (authExists_eq_true.mp hex))
        · rw [if_neg hex]
          by_cases hup : hasUpdates (computeUpdates w s) = true <;>
            by_cases hsu : w.suspendedAt = none
          · rw [if_neg (fun hc => hc hsu), if_pos hup, if_pos hup]
            exact inv2_link_core pre hS hinv hproc horig hwmem hwteam hwci
              (link_users_eq_patch hinv.nodup hwmem hsu) rfl rfl rfl rfl
          · rw [if_pos hsu, if_pos hup]
            exact inv2_link_core pre hS hinv hproc horig hwmem hwteam hwci
              (link_users_eq_patch_clear hinv.nodup hwmem hsu) rfl rfl rfl rfl
          · rw [if_neg (fun hc => hc hsu), if_neg hup, if_neg hup]
            exact inv2_link_core pre hS hinv hproc horig hwmem hwteam hwci
              (link_users_eq_id hinv.nodup hwmem hup hsu) rfl rfl rfl rfl
          · rw [if_pos hsu, if_neg hup]
            exact inv2_link_core pre hS hinv hproc horig hwmem hwteam hwci
              (link_users_eq_clear hinv.nodup hwmem hup hsu) rfl rfl rfl rfl
    | none =>
        simp only [hf]
        by_cases hex : authExists db apId s.providerId = true
        · rw [if_pos hex]
          exact inv2_snoc_skip hinv (Or.inr (authExists_eq_true.mp hex))
        · rw [if_neg hex]
          cases dg with
          | some g =>
              exact inv2_create_core pre hS hinv hproc rfl rfl rfl rfl rfl
          | none =>
              exact inv2_create_core pre hS hinv hproc rfl rfl rfl rfl rfl

/-! ## Phase-2 invariant: fold and final extraction (C2 amended, part 8) -/

theorem phase2_fold_inv2 {db0 : DB} {tid apId : Nat} {S : List SyncUser} {now : Nat}
    {team : TeamRec} {dg : Option GroupRec}
    (pre : C2Pre db0 tid apId S) :
    ∀ (rest done : List SyncUser) (db : DB) (rep : SyncReport),
      S = done ++ rest → Inv2 db0 tid apId S now done db →
      Inv2 db0 tid apId S now S
        ((rest.foldl (phase2Step tid apId team dg (processedIds db0 tid apId))
          (db, rep)).1) := by
  intro rest
  induction rest with
  | nil =>
      intro done db rep hSeq hinv
      simp only [List.foldl_nil]
      rw [List.append_nil] at hSeq
      subst hSeq
      exact hinv
  | cons s t ih =>
      intro done db rep hSeq hinv
      simp only [List.foldl_cons]
      exact ih (done ++ [s])
        (phase2Step tid apId team dg (processedIds db0 tid apId) (db, rep) s).1
        (phase2Step tid apId team dg (processedIds db0 tid apId) (db, rep) s).2
        (by rw [hSeq, List.append_assoc]; rfl)
        (@phase2Step_inv2 db0 tid apId S now team dg done t s db rep pre hSeq hinv)

theorem processedIds_sub {db0 : DB} {tid apId : Nat} {S : List SyncUser} {now : Nat}
    {done : List SyncUser} {db : DB}
    (hinv : Inv2 db0 tid apId S now done db) :
    ∀ pid ∈ processedIds db0 tid apId, pid ∈ processedIds db tid apId := by
  intro pid hpid
  obtain ⟨pr, hpr, hpe⟩ := List.mem_map.mp hpid
  obtain ⟨ha0, hap, hju⟩ := mem_joinedPairs.mp hpr
  obtain ⟨newAuths, hA, _⟩ := hinv.auths
  have hmem : pr.1 ∈ db.auths := by
    rw [hA]
    exact List.mem_append_left _ ha0
  have huid : pr.2.id = pr.1.userId := (getUserInTeam_some hju).2.1
  have hjoin : getUserInTeam db tid pr.1.userId = some (phase1RowResult S now pr) := by
    apply (getUserInTeam_eq_some_iff hinv.nodup).mpr
    constructor
    · rw [← huid]
      exact hinv.pairsRows pr hpr
    · rw [phase1RowResult_teamId]
      exact (getUserInTeam_some hju).2.2
  have hprm : (pr.1, phase1RowResult S now pr) ∈ joinedPairs db tid apId :=
    mem_joinedPairs.mpr ⟨hmem, hap, hjoin⟩
  rw [← hpe]
  exact List.mem_map_of_mem (fun q => q.1.providerId) hprm

theorem inv2_final {db0 : DB} {tid apId : Nat} {S : List SyncUser} {now : Nat}
    {db : DB} (pre : C2Pre db0 tid apId S)
    (hinv : Inv2 db0 tid apId S now S db) :
    (∀ pr ∈ joinedPairs db tid apId, SyncedPair S pr) ∧
    (∀ s ∈ S, Covered db tid apId s) := by
  obtain ⟨newAuths, hA, hF⟩ := hinv.auths
  constructor
  · intro pr hpr
    obtain ⟨hadb, hap, hju⟩ := mem_joinedPairs.mp hpr
    obtain ⟨humem, huid, huteam⟩ := getUserInTeam_some hju
    rw [hA, List.mem_append] at hadb
    rcases hadb with h0 | hnew
    · -- An original authentication row.
      cases hj0 : getUserInTeam db0 tid pr.1.userId with
      | some u0 =>
          have hpr0 : (pr.1, u0) ∈ joinedPairs db0 tid apId :=
            mem_joinedPairs.mpr ⟨h0, hap, hj0⟩
          have hrow := hinv.pairsRows (pr.1, u0) hpr0
          have hu0id : u0.id = pr.1.userId := (getUserInTeam_some hj0).2.1
          have hgu : getUser db pr.2.id = some pr.2 :=
            getUser_eq_of_mem hinv.nodup humem
          have hueq : pr.2 = phase1RowResult S now (pr.1, u0) := by
            have h2 : getUser db u0.id = some pr.2 := by
              rw [hu0id, ← huid]
              exact hgu
            rw [h2] at hrow
            exact Option.some_inj.mp hrow
          unfold SyncedPair
          cases hl : lookupLast S pr.1.providerId with
          | some p =>
              rw [hueq]
              exact @phase1RowResult_synced_match S now (pr.1, u0) p hl
          | none =>
              rw [hueq]
              exact @phase1RowResult_orphan_susp S now (pr.1, u0) hl
      | none =>
          exfalso
          rcases hinv.rows pr.2 humem with hr1 | horig | hsync
          · obtain ⟨pr0, hpr0, hid0, _⟩ := hr1
            have hju0 : getUserInTeam db0 tid pr0.1.userId = some pr0.2 :=
              (mem_joinedPairs.mp hpr0).2.2
            rw [getUserInTeam_eq_none] at hj0
            exact hj0 pr0.2 (getUserInTeam_some hju0).1
              ⟨by rw [← hid0]; exact huid, (getUserInTeam_some hju0).2.2⟩
          · rw [getUserInTeam_eq_none] at hj0
            have hm0 : pr.2 ∈ db0.users := by
              have := horig.1
              exact List.mem_of_find?_eq_some this
            exact hj0 pr.2 hm0 ⟨huid, huteam⟩
          · obtain ⟨s', _, _, _, _, _, _, hcase⟩ := hsync
            rcases hcase with hsome | hge
            · rw [huid, hj0] at hsome
              exact absurd hsome (by simp)
            · have := pre.fklt pr.1 h0
              rw [← huid] at this
              omega
    · -- An authentication row created by Phase 2.
      obtain ⟨_, s', hs', hpid, _, v, hvmem, hvid, _, hvnd, hvsusp, hvci⟩ := hF pr.1 hnew
      have hvu : v = pr.2 := by
        apply mem_id_unique hinv.nodup hvmem humem
        rw [hvid, ← huid]
      unfold SyncedPair
      have hl : lookupLast S pr.1.providerId = some s' := by
        rw [hpid]
        exact lookupLast_of_nodup pre.pidsN hs'
      rw [hl]
      rw [hvu] at hvnd hvsusp
      exact ⟨hvnd, hvsusp⟩
  · intro s hs
    rcases hinv.cover s hs with h1 | h2
    · exact Or.inl (processedIds_sub hinv s.providerId h1)
    · exact Or.inr (authExists_eq_true.mpr h2)

/-- C2: the spec's unconditional idempotence fails (see the duplicate-providerId
counterexample), but the amended claim holds: when the snapshot is non-empty
with pairwise-distinct providerIds and pairwise-distinct, non-empty
case-folded emails, the team and provider exist, the store is well-formed
(distinct user ids below the id watermark, authentication foreign keys below
the watermark, at most one joined authentication per team user for the
binding), and no orphan-authentication user's email matches any snapshot
email case-insensitively, then the second `reconcile` call reports
`created = updated = suspended = reactivated = 0`, `unchanged` equal to the
number of authentications joined to team users for the binding after the
first call, and leaves the store exactly as the first call left it. -/
theorem c2_idempotent_amended (db0 db1 : DB) (now now' tid apId : Nat)
    (S : List SyncUser) (gid gid' : Option Nat) (gname gname' : Option String)
    (pre : C2Pre db0 tid apId S)
    (hdb1 : db1 = (reconcile db0 now tid apId S gid gname).2) :
    (reconcile db1 now' tid apId S gid' gname').1.created = 0 ∧
    (reconcile db1 now' tid apId S gid' gname').1.updated = 0 ∧
    (reconcile db1 now' tid apId S gid' gname').1.suspended = 0 ∧
    (reconcile db1 now' tid apId S gid' gname').1.reactivated = 0 ∧
    (reconcile db1 now' tid apId S gid' gname').1.unchanged =
      (joinedPairs db1 tid apId).length ∧
    (reconcile db1 now' tid apId S gid' gname').2 = db1 := by
  have hlen : ¬ S.length = 0 := fun h => pre.nonempty (List.length_eq_zero.mp h)
  obtain ⟨team, hteamq⟩ := pre.teamSome
  obtain ⟨ap, hapq⟩ := pre.apSome
  have hinv1 : Inv2 db0 tid apId S now S db1 := by
    rw [hdb1]
    unfold reconcile
    rw [if_neg hlen, hteamq, hapq]
    dsimp only
    exact phase2_fold_inv2 pre S []
      ((joinedPairs db0 tid apId).foldl (phase1Step S now) (db0, SyncReport.empty)).1
      ((joinedPairs db0 tid apId).foldl (phase1Step S now) (db0, SyncReport.empty)).2
      (List.nil_append S).symm
      (inv2_init db0 tid apId S now SyncReport.empty pre)
  obtain ⟨hsync, hcov⟩ := inv2_final pre hinv1
  refine run2_report db1 now' tid apId S gid' gname' hlen ?_ ?_ hsync hcov pre.emailsNE
  · rw [hinv1.teams]
    exact ⟨team, hteamq⟩
  · rw [hinv1.aps]
    exact ⟨ap, hapq⟩

/-- Witness for the amended idempotence theorem: a concrete one-entry snapshot
against the empty store; the second run returns the first run's store
unchanged. -/
theorem c2_idempotent_amended_witness :
    C2Pre dbEmpty 1 1 [⟨"g", "a@x", "A", none⟩] ∧
    (reconcile ((reconcile dbEmpty 3 1 1 [⟨"g", "a@x", "A", none⟩] none none).2)
        4 1 1 [⟨"g", "a@x", "A", none⟩] none none).2 =
      (reconcile dbEmpty 3 1 1 [⟨"g", "a@x", "A", none⟩] none none).2 := by
  have hpre : C2Pre dbEmpty 1 1 [⟨"g", "a@x", "A", none⟩] :=
    ⟨by decide, ⟨team1, by decide⟩, ⟨ap1, by decide⟩, by decide, by decide, by decide,
     by decide, by decide, by decide, by decide, by decide⟩
  exact ⟨hpre,
    (c2_idempotent_amended dbEmpty _ 3 4 1 1 [⟨"g", "a@x", "A", none⟩]
      none none none none hpre rfl).2.2.2.2.2⟩
